import Mathlib

/-!
Verification of the UTM-builder rule engine (validator, detector, parser,
fixer/URL rebuilder) against its natural-language specification.

The TypeScript sources are shallowly embedded: strings are `List Char`
processed by executable Lean functions mirroring the JavaScript string
operations the code performs.  The WHATWG `URL` / `URLSearchParams`
platform objects the code builds on are modelled by an explicit record
(base, decoded query pairs, fragment) together with the
`application/x-www-form-urlencoded` encoder and decoder, as sanctioned by
the spec's design note on URL handling.  The rules configuration module
(`src/lib/rules.ts`) is not part of the sources; it is modelled from the
spec and the README (see `modelConfig`).
-/

/-- The set of characters matched by the JavaScript regexp class `\s`
(and removed by `String.prototype.trim`): ASCII whitespace, NBSP, BOM,
the Unicode space separators and the line/paragraph separators. -/
def jsWhitespaceChars : List Char :=
  [' ', '\t', '\n', '\r', '\x0b', '\x0c', '\u00A0', '\uFEFF',
   '\u1680', '\u2000', '\u2001', '\u2002', '\u2003', '\u2004', '\u2005',
   '\u2006', '\u2007', '\u2008', '\u2009', '\u200A', '\u202F', '\u205F',
   '\u3000', '\u2028', '\u2029']

/-- JavaScript whitespace predicate (`\s`, `trim`). -/
def jsWhitespace (c : Char) : Bool :=
  jsWhitespaceChars.contains c

/-- Lowercasing table modelling `String.prototype.toLowerCase` on the
characters this program distinguishes: ASCII letters, the Latin-1
uppercase letters (whose lowercase forms appear in the transliteration
table), `Ÿ` and the capital sharp s.  Characters outside the table are
left unchanged by the model. -/
def jsLowerTable : List (Char × Char) :=
  [('A', 'a'), ('B', 'b'), ('C', 'c'), ('D', 'd'), ('E', 'e'), ('F', 'f'),
   ('G', 'g'), ('H', 'h'), ('I', 'i'), ('J', 'j'), ('K', 'k'), ('L', 'l'),
   ('M', 'm'), ('N', 'n'), ('O', 'o'), ('P', 'p'), ('Q', 'q'), ('R', 'r'),
   ('S', 's'), ('T', 't'), ('U', 'u'), ('V', 'v'), ('W', 'w'), ('X', 'x'),
   ('Y', 'y'), ('Z', 'z'),
   ('À', 'à'), ('Á', 'á'), ('Â', 'â'), ('Ã', 'ã'), ('Ä', 'ä'), ('Å', 'å'),
   ('Æ', 'æ'), ('Ç', 'ç'), ('È', 'è'), ('É', 'é'), ('Ê', 'ê'), ('Ë', 'ë'),
   ('Ì', 'ì'), ('Í', 'í'), ('Î', 'î'), ('Ï', 'ï'), ('Ñ', 'ñ'),
   ('Ò', 'ò'), ('Ó', 'ó'), ('Ô', 'ô'), ('Õ', 'õ'), ('Ö', 'ö'), ('Ø', 'ø'),
   ('Ù', 'ù'), ('Ú', 'ú'), ('Û', 'û'), ('Ü', 'ü'), ('Ý', 'ý'),
   ('Ÿ', 'ÿ'), ('ẞ', 'ß')]

/-- One character of `toLowerCase` (table lookup model). -/
def jsLowerChar (c : Char) : Char :=
  ((jsLowerTable.find? (fun pr => pr.1 = c)).map Prod.snd).getD c

/-- `value.toLowerCase()` on the character-list representation. -/
def jsLower (s : List Char) : List Char :=
  s.map jsLowerChar

/-- `input.trim()`: drop JavaScript whitespace from both ends. -/
def jsTrim (s : List Char) : List Char :=
  ((s.dropWhile jsWhitespace).reverse.dropWhile jsWhitespace).reverse

/-- The literal characters of the `{keyword}` macro token
(the braces written as escapes). -/
def kwToken : List Char :=
  ['\x7b', 'k', 'e', 'y', 'w', 'o', 'r', 'd', '\x7d']

/-- The internal sentinel `__KEYWORD_MACRO__` used by `cleanUtmValue`. -/
def kwSentinel : List Char :=
  ['_', '_', 'K', 'E', 'Y', 'W', 'O', 'R', 'D', '_', 'M', 'A', 'C', 'R', 'O', '_', '_']

/-- Shield step of `cleanUtmValue`
(`result.replace(/\\{keyword\\}/gi, keywordPlaceholder)`): scan left to
right, replacing each case-insensitive occurrence of the nine-character
token `{keyword}` by the sentinel.  The token has fixed length, so the
occurrence test is inlined as a nine-character lookahead, keeping the
recursion structural (hence executable by `decide`). -/
def shieldKw : List Char → List Char
  | c1 :: c2 :: c3 :: c4 :: c5 :: c6 :: c7 :: c8 :: c9 :: rest =>
    if [c1, c2, c3, c4, c5, c6, c7, c8, c9].map jsLowerChar = kwToken then
      kwSentinel ++ shieldKw rest
    else
      c1 :: shieldKw (c2 :: c3 :: c4 :: c5 :: c6 :: c7 :: c8 :: c9 :: rest)
  | c :: rest => c :: shieldKw rest
  | [] => []

/-- Restore step of `cleanUtmValue`
(`result.replace(new RegExp(keywordPlaceholder, 'g'), '\x7bkeyword\x7d')`):
replace each case-sensitive occurrence of the seventeen-character sentinel
by the macro token, with the same fixed-lookahead scheme. -/
def restoreKw : List Char → List Char
  | c1 :: c2 :: c3 :: c4 :: c5 :: c6 :: c7 :: c8 :: c9 :: c10 :: c11 :: c12 :: c13 ::
      c14 :: c15 :: c16 :: c17 :: rest =>
    if [c1, c2, c3, c4, c5, c6, c7, c8, c9, c10, c11, c12, c13, c14, c15, c16, c17] =
        kwSentinel then
      kwToken ++ restoreKw rest
    else
      c1 :: restoreKw (c2 :: c3 :: c4 :: c5 :: c6 :: c7 :: c8 :: c9 :: c10 :: c11 ::
        c12 :: c13 :: c14 :: c15 :: c16 :: c17 :: rest)
  | c :: rest => c :: restoreKw rest
  | [] => []

/-- The transliteration table of `cleanUtmValue`, in source order. -/
def transliterations : List (Char × List Char) :=
  [('ø', ['o']), ('ö', ['o']), ('ô', ['o']), ('ò', ['o']), ('ó', ['o']), ('õ', ['o']),
   ('å', ['a']), ('ä', ['a']), ('à', ['a']), ('á', ['a']), ('â', ['a']), ('ã', ['a']),
   ('æ', ['a', 'e']),
   ('ü', ['u']), ('ù', ['u']), ('ú', ['u']), ('û', ['u']),
   ('ë', ['e']), ('è', ['e']), ('é', ['e']), ('ê', ['e']),
   ('ï', ['i']), ('ì', ['i']), ('í', ['i']), ('î', ['i']),
   ('ÿ', ['y']), ('ý', ['y']),
   ('ñ', ['n']),
   ('ç', ['c']),
   ('ß', ['s', 's'])]

/-- One pass `result.replace(new RegExp(from, 'g'), to)` for a
single-character pattern `from`. -/
def replaceChar (from_ : Char) (to_ : List Char) (s : List Char) : List Char :=
  s.flatMap (fun c => if c = from_ then to_ else [c])

/-- The sequential transliteration loop of `cleanUtmValue`. -/
def applyTranslit (s : List Char) : List Char :=
  transliterations.foldl (fun acc pr => replaceChar pr.1 pr.2 acc) s

/-- Characters of the regexp class `[\s\-–—]` collapsed to underscores. -/
def isSpaceDash (c : Char) : Bool :=
  jsWhitespace c || c = '-' || c = '–' || c = '—'

/-- Characters kept by the strip step (`[^a-z0-9_]` removed). -/
def isAllowedChar (c : Char) : Bool :=
  ('a' ≤ c && c ≤ 'z') || ('0' ≤ c && c ≤ '9') || c = '_'

/-- Replace every maximal run of characters satisfying `p` by the single
character `rep` (the effect of `replace(/X+/g, rep)` for a character
class `X`). -/
def squashRuns (p : Char → Bool) (rep : Char) : List Char → List Char
  | [] => []
  | [c] => if p c then [rep] else [c]
  | c :: d :: rest =>
    if p c then
      (if p d then squashRuns p rep (d :: rest)
       else rep :: squashRuns p rep (d :: rest))
    else c :: squashRuns p rep (d :: rest)

/-- Drop leading and trailing underscores (`replace(/^_+|_+$/g, '')`). -/
def dropUnderscoreEnds (s : List Char) : List Char :=
  (((s.dropWhile (fun c => c = '_')).reverse.dropWhile (fun c => c = '_'))).reverse

/-- The character-list pipeline of `cleanUtmValue`: optionally shield the
`{keyword}` macro behind the sentinel, lowercase, transliterate, collapse
whitespace and dashes to underscores, strip disallowed characters,
collapse and trim underscores, and finally substitute the sentinel back. -/
def cleanPipeline (preserveKeyword : Bool) (r0 : List Char) : List Char :=
  let r1 := if preserveKeyword then shieldKw r0 else r0
  let r2 := jsLower r1
  let r3 := applyTranslit r2
  let r4 := squashRuns isSpaceDash '_' r3
  let r5 := r4.filter isAllowedChar
  let r6 := squashRuns (fun c => c = '_') '_' r5
  let r7 := dropUnderscoreEnds r6
  let r8 := if preserveKeyword then restoreKw r7 else r7
  r8

/-- `cleanUtmValue` from `src/src/lib/validator.ts`. -/
def cleanUtmValue (value : String) (preserveKeyword : Bool) : String :=
  String.mk (cleanPipeline preserveKeyword value.toList)

example : cleanUtmValue "Spring Sale" false = "spring_sale" := by decide
example : cleanUtmValue "Paid Social!" false = "paid_social" := by decide
example : cleanUtmValue "sømmer–køl" false = "sommer_kol" := by decide
example : cleanUtmValue "__a__b__" false = "a_b" := by decide

/-- No two adjacent underscores. -/
def NoDoubleUnderscore (s : List Char) : Prop :=
  List.Chain' (fun a b => ¬(a = '_' ∧ b = '_')) s

/-- Canonical form of the pipeline output: only `[a-z0-9_]` characters, no
repeated underscores, no underscore at either end. -/
def CanonList (s : List Char) : Prop :=
  (∀ c ∈ s, isAllowedChar c) ∧ NoDoubleUnderscore s ∧
    s.head? ≠ some '_' ∧ s.getLast? ≠ some '_'

theorem mem_squashRuns {p : Char → Bool} {rep c : Char} :
    ∀ {s : List Char}, c ∈ squashRuns p rep s → c = rep ∨ c ∈ s := by
  intro s
  induction s with
  | nil => simp [squashRuns]
  | cons a rest ih =>
    intro h
    cases rest with
    | nil =>
      by_cases hpa : p a = true <;> simp [squashRuns, hpa] at h <;> simp [h]
    | cons d ds =>
      by_cases hpa : p a = true <;> by_cases hpd : p d = true <;>
          simp only [squashRuns, hpa, hpd, Bool.false_eq_true, if_true, if_false,
            List.mem_cons] at h
      · rcases ih h with h1 | h1
        · exact Or.inl h1
        · exact Or.inr (List.mem_cons_of_mem _ h1)
      · rcases h with h1 | h1
        · exact Or.inl h1
        · rcases ih h1 with h2 | h2
          · exact Or.inl h2
          · exact Or.inr (List.mem_cons_of_mem _ h2)
      · rcases h with h1 | h1
        · exact Or.inr (by simp [h1])
        · rcases ih h1 with h2 | h2
          · exact Or.inl h2
          · exact Or.inr (List.mem_cons_of_mem _ h2)
      · rcases h with h1 | h1
        · exact Or.inr (by simp [h1])
        · rcases ih h1 with h2 | h2
          · exact Or.inl h2
          · exact Or.inr (List.mem_cons_of_mem _ h2)

theorem squashRuns_head? {p : Char → Bool} {rep : Char} :
    ∀ {s : List Char},
      (squashRuns p rep s).head? = s.head?.map (fun d => if p d then rep else d) := by
  intro s
  induction s with
  | nil => simp [squashRuns]
  | cons a rest ih =>
    cases rest with
    | nil => by_cases hpa : p a = true <;> simp [squashRuns, hpa]
    | cons d ds =>
      by_cases hpa : p a = true <;> by_cases hpd : p d = true <;>
          simp only [squashRuns, hpa, hpd, Bool.false_eq_true, if_true, if_false] <;>
        simp_all

theorem squashUnderscore_chain :
    ∀ (s : List Char), NoDoubleUnderscore (squashRuns (fun c => c = '_') '_' s) := by
  intro s
  unfold NoDoubleUnderscore
  induction s with
  | nil => simp [squashRuns]
  | cons a rest ih =>
    cases rest with
    | nil =>
      by_cases hpa : a = '_' <;> simp [squashRuns, hpa]
    | cons d ds =>
      by_cases hpa : a = '_'
      · subst hpa
        by_cases hpd : d = '_'
        · subst hpd
          simpa [squashRuns] using ih
        · simp only [squashRuns, hpd, decide_eq_true_eq, if_true, if_false,
            decide_eq_false_iff_not]
          refine List.chain'_cons'.mpr ⟨?_, ih⟩
          intro y hy
          rw [Option.mem_def, squashRuns_head?] at hy
          simp only [List.head?_cons, Option.map_some', Option.some.injEq] at hy
          rw [if_neg (by simpa using hpd)] at hy
          subst hy
          exact fun hand => hpd hand.2
      · have : squashRuns (fun c => c = '_') '_' (a :: d :: ds) =
            a :: squashRuns (fun c => c = '_') '_' (d :: ds) := by
          simp only [squashRuns]
          rw [if_neg (by simpa using hpa)]
        rw [this]
        refine List.chain'_cons'.mpr ⟨?_, ih⟩
        intro y _
        exact fun hand => hpa hand.1

theorem squashRuns_all_allowed {s : List Char} (h : ∀ c ∈ s, isAllowedChar c) :
    ∀ c ∈ squashRuns (fun c => c = '_') '_' s, isAllowedChar c := by
  intro c hc
  rcases mem_squashRuns hc with h1 | h1
  · subst h1; decide
  · exact h c h1

theorem head?_dropWhile_false {p : Char → Bool} :
    ∀ {s : List Char} {c : Char}, (s.dropWhile p).head? = some c → p c = false := by
  intro s
  induction s with
  | nil => intro c h; simp at h
  | cons a rest ih =>
    intro c h
    rw [List.dropWhile_cons] at h
    split at h
    · exact ih h
    · simp at h
      subst h
      rename_i hpa
      simpa using hpa

theorem dropUnderscoreEnds_head {s : List Char} :
    (dropUnderscoreEnds s).head? ≠ some '_' := by
  intro h
  unfold dropUnderscoreEnds at h
  set A := s.dropWhile (fun c => c = '_') with hA
  set B := A.reverse.dropWhile (fun c => c = '_') with hB
  have hsuf : B <:+ A.reverse := List.dropWhile_suffix _
  have hpre : B.reverse <+: A := by
    have := (@List.reverse_prefix Char B A.reverse).mpr hsuf
    simpa using this
  obtain ⟨t, ht⟩ := hpre
  have hAhead : A.head? = some '_' := by
    rw [← ht]
    cases hBr : B.reverse with
    | nil => rw [hBr] at h; simp at h
    | cons x xs =>
      rw [hBr] at h
      simp at h
      subst h
      simp
  have := @head?_dropWhile_false (fun c => c = '_') s '_' hAhead
  simp at this

theorem dropUnderscoreEnds_last {s : List Char} :
    (dropUnderscoreEnds s).getLast? ≠ some '_' := by
  intro h
  unfold dropUnderscoreEnds at h
  rw [List.getLast?_reverse] at h
  have := @head?_dropWhile_false (fun c => c = '_') _ _ h
  simp at this

theorem dropUnderscoreEnds_chain {s : List Char} (h : NoDoubleUnderscore s) :
    NoDoubleUnderscore (dropUnderscoreEnds s) := by
  unfold NoDoubleUnderscore at *
  unfold dropUnderscoreEnds
  have symmrev : ∀ (l : List Char),
      List.Chain' (fun a b : Char => ¬(a = '_' ∧ b = '_')) l →
      List.Chain' (fun a b : Char => ¬(a = '_' ∧ b = '_')) l.reverse := by
    intro l hl
    rw [List.chain'_reverse]
    exact hl.imp (fun {a b} hab hand => hab ⟨hand.2, hand.1⟩)
  apply symmrev
  apply List.Chain'.suffix _ (List.dropWhile_suffix _)
  apply symmrev
  exact List.Chain'.suffix h (List.dropWhile_suffix _)

theorem mem_dropUnderscoreEnds {s : List Char} {c : Char}
    (h : c ∈ dropUnderscoreEnds s) : c ∈ s := by
  unfold dropUnderscoreEnds at h
  rw [List.mem_reverse] at h
  have h1 := (@List.dropWhile_suffix Char ((s.dropWhile (fun c => c = '_')).reverse)
    (fun c => c = '_')).subset h
  rw [List.mem_reverse] at h1
  exact (@List.dropWhile_suffix Char s (fun c => c = '_')).subset h1

theorem cleanTail_canon (l : List Char) :
    CanonList (dropUnderscoreEnds
      (squashRuns (fun c => c = '_') '_' (l.filter isAllowedChar))) := by
  refine ⟨?_, ?_, dropUnderscoreEnds_head, dropUnderscoreEnds_last⟩
  · intro c hc
    exact squashRuns_all_allowed
      (fun d hd => (List.mem_filter.mp hd).2) c (mem_dropUnderscoreEnds hc)
  · exact dropUnderscoreEnds_chain (squashUnderscore_chain _)

theorem jsLowerChar_allowed {c : Char} (h : isAllowedChar c = true) :
    jsLowerChar c = c := by
  unfold jsLowerChar
  cases hf : jsLowerTable.find? (fun pr => pr.1 = c) with
  | none => rfl
  | some pr =>
    exfalso
    have hmem := List.mem_of_find?_eq_some hf
    have hp : pr.1 = c := by simpa using List.find?_some hf
    have hkeys : ∀ q ∈ jsLowerTable, isAllowedChar q.1 = false := by decide
    have h1 := hkeys pr hmem
    rw [hp, h] at h1
    exact Bool.noConfusion h1

theorem jsLowerChar_brace {c : Char} (h : jsLowerChar c = '\x7b') : c = '\x7b' := by
  unfold jsLowerChar at h
  cases hf : jsLowerTable.find? (fun pr => pr.1 = c) with
  | none => rw [hf] at h; simpa using h
  | some pr =>
    rw [hf] at h
    simp only [Option.map_some', Option.getD_some] at h
    have hmem := List.mem_of_find?_eq_some hf
    have hsnd : ∀ q ∈ jsLowerTable, q.2 ≠ '\x7b' := by decide
    exact absurd h (hsnd pr hmem)

theorem jsLower_noop {s : List Char} (hall : ∀ c ∈ s, isAllowedChar c) :
    jsLower s = s := by
  unfold jsLower
  induction s with
  | nil => rfl
  | cons a rest ih =>
    rw [List.map_cons, jsLowerChar_allowed (hall a (List.mem_cons_self a rest)),
      ih (fun c hc => hall c (List.mem_cons_of_mem _ hc))]

theorem shieldKw_noop {s : List Char} (hall : ∀ c ∈ s, isAllowedChar c) :
    shieldKw s = s := by
  induction s using shieldKw.induct with
  | case1 c1 c2 c3 c4 c5 c6 c7 c8 c9 rest hcond ih =>
    exfalso
    have h1 : jsLowerChar c1 = '\x7b' := by
      have := congrArg (fun l => l.head?) hcond
      simpa [kwToken] using this
    have h2 : c1 = '\x7b' := jsLowerChar_brace h1
    have := hall c1 (by simp)
    rw [h2] at this
    exact Bool.noConfusion this
  | case2 c1 c2 c3 c4 c5 c6 c7 c8 c9 rest hcond ih =>
    rw [shieldKw, if_neg hcond, ih (fun c hc => hall c (List.mem_cons_of_mem _ hc))]
  | case3 c rest hguard ih =>
    rw [shieldKw, ih (fun d hd => hall d (List.mem_cons_of_mem _ hd))]
    exact hguard
  | case4 => rfl

theorem restoreKw_noop {s : List Char} (hall : ∀ c ∈ s, isAllowedChar c) :
    restoreKw s = s := by
  induction s using restoreKw.induct with
  | case1 c1 c2 c3 c4 c5 c6 c7 c8 c9 c10 c11 c12 c13 c14 c15 c16 c17 rest hcond ih =>
    exfalso
    have h3 : c3 = 'K' := by
      have := congrArg (fun l => l.get? 2) hcond
      simpa [kwSentinel] using this
    have := hall c3 (by simp)
    rw [h3] at this
    exact Bool.noConfusion this
  | case2 c1 c2 c3 c4 c5 c6 c7 c8 c9 c10 c11 c12 c13 c14 c15 c16 c17 rest hcond ih =>
    rw [restoreKw, if_neg hcond, ih (fun c hc => hall c (List.mem_cons_of_mem _ hc))]
  | case3 c rest hguard ih =>
    rw [restoreKw, ih (fun d hd => hall d (List.mem_cons_of_mem _ hd))]
    exact hguard
  | case4 => rfl

theorem replaceChar_noop {k : Char} {v : List Char} :
    ∀ {s : List Char}, k ∉ s → replaceChar k v s = s := by
  intro s
  induction s with
  | nil => intro _; rfl
  | cons a rest ih =>
    intro h
    unfold replaceChar at *
    simp only [List.flatMap_cons]
    rw [if_neg (fun he => h (by simp [he]))]
    rw [ih (fun hm => h (List.mem_cons_of_mem _ hm))]
    rfl

theorem applyTranslit_noop {s : List Char} (hall : ∀ c ∈ s, isAllowedChar c) :
    applyTranslit s = s := by
  unfold applyTranslit
  have hgen : ∀ (tbl : List (Char × List Char)),
      (∀ q ∈ tbl, isAllowedChar q.1 = false) →
      tbl.foldl (fun acc pr => replaceChar pr.1 pr.2 acc) s = s := by
    intro tbl htbl
    induction tbl with
    | nil => rfl
    | cons q qs ih =>
      simp only [List.foldl_cons]
      rw [replaceChar_noop (fun hm => by
        have h1 := hall q.1 hm
        have h2 := htbl q (List.mem_cons_self q qs)
        rw [h1] at h2
        exact Bool.noConfusion h2)]
      exact ih (fun r hr => htbl r (List.mem_cons_of_mem _ hr))
  exact hgen transliterations (by decide)

theorem allowed_not_spaceDash {c : Char} (h : isAllowedChar c = true) :
    isSpaceDash c = false := by
  by_contra hsd
  rw [Bool.not_eq_false] at hsd
  unfold isSpaceDash at hsd
  simp only [Bool.or_eq_true, decide_eq_true_eq] at hsd
  rcases hsd with ((hw | h1) | h1) | h1
  · have hm : c ∈ jsWhitespaceChars := by simpa [jsWhitespace] using hw
    fin_cases hm <;> exact absurd h (by decide)
  · subst h1; exact absurd h (by decide)
  · subst h1; exact absurd h (by decide)
  · subst h1; exact absurd h (by decide)

theorem squashRuns_nofire {p : Char → Bool} {rep : Char} :
    ∀ {s : List Char}, (∀ c ∈ s, p c = false) → squashRuns p rep s = s := by
  intro s
  induction s with
  | nil => intro _; rfl
  | cons a rest ih =>
    intro h
    have ha := h a (List.mem_cons_self a rest)
    cases rest with
    | nil => simp [squashRuns, ha]
    | cons d ds =>
      simp only [squashRuns, ha, Bool.false_eq_true, if_false]
      rw [ih (fun c hc => h c (List.mem_cons_of_mem _ hc))]

theorem squashUnderscore_noop :
    ∀ {s : List Char}, NoDoubleUnderscore s →
      squashRuns (fun c => c = '_') '_' s = s := by
  intro s
  induction s with
  | nil => intro _; rfl
  | cons a rest ih =>
    intro h
    cases rest with
    | nil =>
      by_cases hpa : a = '_'
      · subst hpa; simp [squashRuns]
      · simp [squashRuns, hpa]
    | cons d ds =>
      have htail : NoDoubleUnderscore (d :: ds) := (List.chain'_cons.mp h).2
      by_cases hpa : a = '_'
      · subst hpa
        have hd : ¬(d = '_') := fun hdd => (List.chain'_cons.mp h).1 ⟨rfl, hdd⟩
        simp only [squashRuns]
        rw [if_pos (by simp), if_neg (by simpa using hd), ih htail]
      · simp only [squashRuns]
        rw [if_neg (by simpa using hpa), ih htail]

theorem dropWhile_head_noop {p : Char → Bool} {s : List Char}
    (h : ∀ c, s.head? = some c → p c = false) : s.dropWhile p = s := by
  cases s with
  | nil => rfl
  | cons a rest =>
    rw [List.dropWhile_cons, if_neg]
    simp [h a rfl]

theorem dropUnderscoreEnds_noop {s : List Char}
    (hhead : s.head? ≠ some '_') (hlast : s.getLast? ≠ some '_') :
    dropUnderscoreEnds s = s := by
  unfold dropUnderscoreEnds
  have e1 : s.dropWhile (fun c => c = '_') = s := by
    apply dropWhile_head_noop
    intro c hc
    simp only [decide_eq_false_iff_not]
    intro he
    exact hhead (he ▸ hc)
  rw [e1]
  have e2 : s.reverse.dropWhile (fun c => c = '_') = s.reverse := by
    apply dropWhile_head_noop
    intro c hc
    rw [List.head?_reverse] at hc
    simp only [decide_eq_false_iff_not]
    intro he
    exact hlast (he ▸ hc)
  rw [e2, List.reverse_reverse]

theorem cleanPipeline_eq (m : Bool) (l : List Char) :
    cleanPipeline m l =
      dropUnderscoreEnds (squashRuns (fun c => c = '_') '_'
        ((squashRuns isSpaceDash '_'
          (applyTranslit (jsLower (if m then shieldKw l else l)))).filter
            isAllowedChar)) := by
  unfold cleanPipeline
  cases m
  · rfl
  · simp only [if_true]
    exact restoreKw_noop (cleanTail_canon _).1

theorem cleanPipeline_canon (m : Bool) (l : List Char) :
    CanonList (cleanPipeline m l) := by
  rw [cleanPipeline_eq]
  exact cleanTail_canon _

theorem cleanPipeline_canon_id (m : Bool) {t : List Char} (h : CanonList t) :
    cleanPipeline m t = t := by
  obtain ⟨hall, hchain, hh, hl⟩ := h
  unfold cleanPipeline
  dsimp only
  have h1 : (if m then shieldKw t else t) = t := by
    cases m
    · rfl
    · exact shieldKw_noop hall
  rw [h1, jsLower_noop hall, applyTranslit_noop hall,
    squashRuns_nofire (fun c hc => allowed_not_spaceDash (hall c hc)),
    List.filter_eq_self.mpr hall, squashUnderscore_noop hchain,
    dropUnderscoreEnds_noop hh hl]
  cases m
  · rfl
  · exact restoreKw_noop hall

/-- C1: the value normalizer is idempotent — for every string `s` and
macro flag `m`, `cleanUtmValue (cleanUtmValue s m) m = cleanUtmValue s m`. -/
theorem cleanUtmValue_idempotent (s : String) (m : Bool) :
    cleanUtmValue (cleanUtmValue s m) m = cleanUtmValue s m := by
  unfold cleanUtmValue
  have ht : (String.mk (cleanPipeline m s.toList)).toList = cleanPipeline m s.toList := rfl
  rw [ht, cleanPipeline_canon_id m (cleanPipeline_canon m s.toList)]

/-- C2 (code bug): with the macro flag set, `cleanUtmValue` does not
preserve the `{keyword}` token.  The sentinel `__KEYWORD_MACRO__` is
itself lowercased and its underscores collapsed by the later pipeline
steps, so the case-sensitive restore of the sentinel never fires: the
input `{keyword}` comes out as `keyword_macro`, not as `{keyword}`. -/
theorem cleanUtmValue_keyword_not_preserved :
    cleanUtmValue (String.mk kwToken) true =
      String.mk ['k', 'e', 'y', 'w', 'o', 'r', 'd', '_', 'm', 'a', 'c', 'r', 'o'] ∧
    cleanUtmValue (String.mk kwToken) true ≠ String.mk kwToken := by
  decide

/-- The five recognized tracking keys (`UTM_PARAM_KEYS` in `types.ts`). -/
inductive UTMParamKey where
  | utm_source
  | utm_medium
  | utm_campaign
  | utm_content
  | utm_term
deriving DecidableEq, Repr

/-- Canonical key order used throughout the sources. -/
def allParams : List UTMParamKey :=
  [.utm_source, .utm_medium, .utm_campaign, .utm_content, .utm_term]

/-- The literal name of a tracking key. -/
def paramName : UTMParamKey → String
  | .utm_source => "utm_source"
  | .utm_medium => "utm_medium"
  | .utm_campaign => "utm_campaign"
  | .utm_content => "utm_content"
  | .utm_term => "utm_term"

/-- `ParsedUTMParams`: each key optionally present (absence is distinct
from the empty string). -/
structure ParsedUTMParams where
  utm_source : Option String := none
  utm_medium : Option String := none
  utm_campaign : Option String := none
  utm_content : Option String := none
  utm_term : Option String := none
deriving DecidableEq, Repr

/-- Dynamic key access `params[param]`. -/
def ParsedUTMParams.get (p : ParsedUTMParams) : UTMParamKey → Option String
  | .utm_source => p.utm_source
  | .utm_medium => p.utm_medium
  | .utm_campaign => p.utm_campaign
  | .utm_content => p.utm_content
  | .utm_term => p.utm_term

/-- `ParamRule` from `types.ts`.  Optional string-array fields are
modelled as plain lists (TypeScript treats `undefined` and `[]` alike in
every consuming check), optional booleans as `Bool` with `false` for
`undefined`.  The source field `allowKeywordMacro` is named
`allowKeywordTok` here. -/
structure ParamRule where
  required : Bool := false
  allowedValues : List String := []
  preferredValue : Option String := none
  warningIfNotPreferred : Bool := false
  warnIfMissing : Bool := false
  allowKeywordTok : Bool := false
  freeTextAllowed : Bool := false
  examples : List String := []
deriving DecidableEq, Repr

/-- `ChannelRules`: one optional rule per tracking key. -/
structure ChannelRules where
  utm_source : Option ParamRule := none
  utm_medium : Option ParamRule := none
  utm_campaign : Option ParamRule := none
  utm_content : Option ParamRule := none
  utm_term : Option ParamRule := none
deriving DecidableEq, Repr

/-- Dynamic rule access `channel.rules[param]`. -/
def ChannelRules.get (r : ChannelRules) : UTMParamKey → Option ParamRule
  | .utm_source => r.utm_source
  | .utm_medium => r.utm_medium
  | .utm_campaign => r.utm_campaign
  | .utm_content => r.utm_content
  | .utm_term => r.utm_term

/-- `ChannelConfig` from `types.ts`. -/
structure ChannelConfig where
  id : String
  label : String
  platform : String
  trafficType : String
  disallowUtm : Bool := false
  rules : ChannelRules
deriving DecidableEq, Repr

/-- `GlobalRules` from `types.ts`, restricted to the fields the embedded
code reads.  The `allowedValuePattern` regexp string is modelled directly
by the semantics of the configured pattern `^[a-z0-9_]+$` (see
`isValidUtmValue`); `disallowMultipleQuestionMarks` and `requireAnyUtm`
are never read by the embedded functions and are omitted. -/
structure GlobalRules where
  requiredParams : List UTMParamKey
  lowercaseOnly : Bool
  disallowSpaces : Bool
deriving DecidableEq, Repr

/-- `UtmRulesConfig`: global rules plus the ordered channel list. -/
structure UtmRulesConfig where
  version : Nat
  globalRules : GlobalRules
  channels : List ChannelConfig
deriving DecidableEq, Repr

/-- Message severity (`type` field of `ValidationMessage`). -/
inductive MsgKind where
  | error
  | warning
deriving DecidableEq, Repr

/-- `ValidationMessage` from `types.ts`. -/
structure ValidationMessage where
  kind : MsgKind
  param : Option UTMParamKey := none
  message : String
  suggestion : Option String := none
deriving DecidableEq, Repr

/-- `ValidationResult` from `types.ts`. -/
structure ValidationResult where
  isValid : Bool
  hasWarnings : Bool
  errors : List ValidationMessage
  warnings : List ValidationMessage
  messages : List ValidationMessage
  parsedParams : ParsedUTMParams
  channelId : String
deriving DecidableEq, Repr

/-- `rules.ts` accessor `getChannelById` (array `find` by id). -/
def getChannelById (cfg : UtmRulesConfig) (channelId : String) : Option ChannelConfig :=
  cfg.channels.find? (fun c => c.id = channelId)

/-- `hasSpaces` from `parser.ts`: `/\s/.test(value)`. -/
def hasSpaces (value : String) : Bool :=
  value.toList.any jsWhitespace

/-- `isLowercase` from `parser.ts`: `value === value.toLowerCase()`. -/
def isLowercase (value : String) : Bool :=
  value.toList = jsLower value.toList

/-- The replacement text `keyword_placeholder` used by `isValidUtmValue`. -/
def kwPlaceholder : List Char :=
  ['k', 'e', 'y', 'w', 'o', 'r', 'd', '_', 'p', 'l', 'a', 'c', 'e', 'h', 'o', 'l',
   'd', 'e', 'r']

/-- `value.replace(/\{keyword\}/g, 'keyword_placeholder')` (case
sensitive), with the same fixed-lookahead scheme as `shieldKw`. -/
def replaceKwPlaceholder : List Char → List Char
  | c1 :: c2 :: c3 :: c4 :: c5 :: c6 :: c7 :: c8 :: c9 :: rest =>
    if [c1, c2, c3, c4, c5, c6, c7, c8, c9] = kwToken then
      kwPlaceholder ++ replaceKwPlaceholder rest
    else
      c1 :: replaceKwPlaceholder (c2 :: c3 :: c4 :: c5 :: c6 :: c7 :: c8 :: c9 :: rest)
  | c :: rest => c :: replaceKwPlaceholder rest
  | [] => []

/-- `isValidUtmValue` from `validator.ts`: empty values fail; otherwise
the value (with `{keyword}` replaced by a placeholder when the macro is
tolerated) must match the configured global pattern `^[a-z0-9_]+$`. -/
def isValidUtmValue (value : String) (allowKw : Bool) : Bool :=
  if value = "" then false
  else
    let checkValue := if allowKw then replaceKwPlaceholder value.toList else value.toList
    !checkValue.isEmpty && checkValue.all isAllowedChar

/-- JavaScript blank test used by the validator:
`!value || value.trim() === ''`. -/
def isBlankOpt : Option String → Bool
  | none => true
  | some s => s = "" || String.mk (jsTrim s.toList) = ""

/-- `getDefaultValue` from `validator.ts`. -/
def getDefaultValue (param : UTMParamKey) (channel : ChannelConfig) : String :=
  match channel.rules.get param with
  | some rule =>
    match rule.preferredValue with
    | some p => p
    | none =>
      match rule.allowedValues with
      | v :: _ => v
      | [] => defaultByKind param channel
  | none => defaultByKind param channel
where
  /-- The `switch` fallback of `getDefaultValue`. -/
  defaultByKind (param : UTMParamKey) (channel : ChannelConfig) : String :=
    match param with
    | .utm_source => channel.platform
    | .utm_medium => if channel.trafficType = "paid" then "paid" else "organic"
    | .utm_campaign => "campaign_name"
    | .utm_content => "content"
    | .utm_term => "term"

/-- One key of the missing-required pass of `validateUtmParams`. -/
def requiredErrorFor (channel : ChannelConfig) (params : ParsedUTMParams)
    (param : UTMParamKey) : Option ValidationMessage :=
  if isBlankOpt (params.get param) then
    some { kind := MsgKind.error
           param := some param
           message := "Missing required parameter: " ++ paramName param
           suggestion := some (paramName param ++ "=" ++ getDefaultValue param channel) }
  else none

/-- The missing-required pass of `validateUtmParams` (global rules):
one blocking finding per required key that is absent or blank, with a
defaulted suggestion. -/
def requiredParamErrors (globalRules : GlobalRules) (channel : ChannelConfig)
    (params : ParsedUTMParams) : List ValidationMessage :=
  globalRules.requiredParams.filterMap (requiredErrorFor channel params)

/-- The three mutually exclusive global format checks of
`validateUtmParams` for one present, non-empty value: spacing, then
lowercase, then the allowed-character pattern. -/
def formatError (globalRules : GlobalRules) (channel : ChannelConfig)
    (param : UTMParamKey) (value : String) : Option ValidationMessage :=
  let paramRule := channel.rules.get param
  let allowKw := (paramRule.map (fun r => r.allowKeywordTok)).getD false
  let cleanedValue := cleanUtmValue value allowKw
  if globalRules.disallowSpaces && hasSpaces value then
    some { kind := MsgKind.error
           param := some param
           message := paramName param ++ " contains spaces: \"" ++ value ++ "\""
           suggestion := some (paramName param ++ "=" ++ cleanedValue) }
  else if globalRules.lowercaseOnly && !isLowercase value then
    some { kind := MsgKind.error
           param := some param
           message := paramName param ++ " must be lowercase: \"" ++ value ++ "\""
           suggestion := some (paramName param ++ "=" ++ cleanedValue) }
  else if !isValidUtmValue value allowKw then
    some { kind := MsgKind.error
           param := some param
           message := paramName param ++
             " contains invalid characters. Only a-z, 0-9, and underscores are allowed: \"" ++
             value ++ "\""
           suggestion := some (paramName param ++ "=" ++ cleanedValue) }
  else none

/-- The global format pass of `validateUtmParams`: every present,
non-empty value of every key is checked. -/
def globalFormatErrors (globalRules : GlobalRules) (channel : ChannelConfig)
    (params : ParsedUTMParams) : List ValidationMessage :=
  allParams.filterMap (fun param =>
    match params.get param with
    | none => none
    | some value =>
      if value = "" then none
      else formatError globalRules channel param value)

/-- One key of `validateChannelRules`: the optional blocking finding and
the optional advisory finding it contributes. -/
def channelRuleFinding (channel : ChannelConfig) (params : ParsedUTMParams)
    (param : UTMParamKey) : Option ValidationMessage × Option ValidationMessage :=
  match channel.rules.get param with
  | none => (none, none)
  | some rule =>
    let value? := params.get param
    if isBlankOpt value? then
      if rule.warnIfMissing then
        let ex := rule.examples.take 2
        let exText := if rule.examples.isEmpty then "" else
          " (e.g., " ++ String.intercalate ", " ex ++ ")"
        (none, some { kind := MsgKind.warning
                      param := some param
                      message := paramName param ++ " is recommended for " ++
                        channel.label ++ exText })
      else (none, none)
    else
      let value := value?.getD ""
      if rule.allowedValues.isEmpty then (none, none)
      else if rule.allowedValues.contains value then
        match rule.preferredValue with
        | some preferred =>
          if rule.warningIfNotPreferred && value ≠ preferred then
            (none, some { kind := MsgKind.warning
                          param := some param
                          message := "Using \"" ++ value ++ "\" as " ++ paramName param ++
                            " is acceptable, but \"" ++ preferred ++
                            "\" is recommended for consistency"
                          suggestion := some (paramName param ++ "=" ++ preferred) })
          else (none, none)
        | none => (none, none)
      else if rule.freeTextAllowed then (none, none)
      else
        let suggestion := match rule.preferredValue with
          | some p => paramName param ++ "=" ++ p
          | none => paramName param ++ "=" ++ (rule.allowedValues.headD "")
        (some { kind := MsgKind.error
                param := some param
                message := "For " ++ channel.label ++ ", " ++ paramName param ++
                  " must be \"" ++ String.intercalate "\" or \"" rule.allowedValues ++
                  "\", got \"" ++ value ++ "\""
                suggestion := some suggestion }, none)

/-- `validateChannelRules` from `validator.ts`: the blocking and advisory
findings contributed by the per-channel rules, in key order. -/
def validateChannelRules (channel : ChannelConfig) (params : ParsedUTMParams) :
    List ValidationMessage × List ValidationMessage :=
  (allParams.filterMap (fun k => (channelRuleFinding channel params k).1),
   allParams.filterMap (fun k => (channelRuleFinding channel params k).2))

/-- `validateUtmParams` from `validator.ts`, parametric in the rules
configuration the source reads from its module-level `rules.ts`. -/
def validateUtmParams (cfg : UtmRulesConfig) (params : ParsedUTMParams)
    (channelId : String) : ValidationResult :=
  let globalRules := cfg.globalRules
  match getChannelById cfg channelId with
  | none =>
    let errors : List ValidationMessage :=
      [{ kind := MsgKind.error
         message := "Unknown channel: " ++ channelId }]
    { isValid := false
      hasWarnings := false
      errors := errors
      warnings := []
      messages := errors
      parsedParams := params
      channelId := channelId }
  | some channel =>
    if channel.disallowUtm then
      let hasAnyUtm := allParams.any (fun k => !((params.get k).getD "").isEmpty)
      let errors : List ValidationMessage :=
        if hasAnyUtm then
          [{ kind := MsgKind.error
             message := "This channel does not permit UTM parameters. Remove all UTM parameters for organic search traffic." }]
        else []
      { isValid := errors.isEmpty
        hasWarnings := false
        errors := errors
        warnings := []
        messages := errors
        parsedParams := params
        channelId := channelId }
    else
      let errors := requiredParamErrors globalRules channel params ++
        globalFormatErrors globalRules channel params ++
        (validateChannelRules channel params).1
      let warnings := (validateChannelRules channel params).2
      { isValid := errors.isEmpty
        hasWarnings := !warnings.isEmpty
        errors := errors
        warnings := warnings
        messages := errors ++ warnings
        parsedParams := params
        channelId := channelId }

/-- Modelled from the spec: the rules configuration module
(`src/lib/rules.ts`) is not among the sources — only its type shape
(`types.ts`), its accessors' call sites and the README survive.  The
channel list follows the README table (Google Ads, Facebook, Instagram
and Pinterest in paid and organic variants, Email) plus the
UTM-forbidding organic-search channel the spec describes; the global
rules follow the README (required source/medium/campaign, lowercase only,
no spaces, pattern `^[a-z0-9_]+$`), and Google Ads tolerates the
`{keyword}` macro in `utm_term` as described by the parser's
documentation. -/
def modelGlobalRules : GlobalRules where
  requiredParams := [.utm_source, .utm_medium, .utm_campaign]
  lowercaseOnly := true
  disallowSpaces := true

/-- Modelled from the spec: the Google Ads paid-search channel. -/
def chGoogleAds : ChannelConfig where
  id := "google_ads"
  label := "Google Ads"
  platform := "google"
  trafficType := "paid_search"
  rules :=
    { utm_source := some { required := true, allowedValues := ["google"] }
      utm_medium := some { required := true, allowedValues := ["cpc"] }
      utm_campaign := some { required := true, freeTextAllowed := true }
      utm_term := some { allowKeywordTok := true, freeTextAllowed := true } }

/-- Modelled from the spec: the UTM-forbidding organic-search channel. -/
def chGoogleOrganic : ChannelConfig where
  id := "google_organic"
  label := "Google Organic"
  platform := "google"
  trafficType := "organic"
  disallowUtm := true
  rules := {}

/-- Modelled from the spec: Facebook paid. -/
def chFacebookPaid : ChannelConfig where
  id := "facebook_paid"
  label := "Facebook Paid"
  platform := "facebook"
  trafficType := "paid"
  rules :=
    { utm_source := some { required := true, allowedValues := ["facebook"] }
      utm_medium := some { required := true, allowedValues := ["paid_social"] }
      utm_campaign := some { required := true, freeTextAllowed := true }
      utm_content := some { warnIfMissing := true,
                            examples := ["carousel_video", "story_ad"] } }

/-- Modelled from the spec: Facebook organic. -/
def chFacebookOrganic : ChannelConfig where
  id := "facebook_organic"
  label := "Facebook Organic"
  platform := "facebook"
  trafficType := "organic"
  rules :=
    { utm_source := some { required := true, allowedValues := ["facebook"] }
      utm_medium := some { required := true, allowedValues := ["organic_social"] }
      utm_campaign := some { required := true, freeTextAllowed := true } }

/-- Modelled from the spec: Instagram paid. -/
def chInstagramPaid : ChannelConfig where
  id := "instagram_paid"
  label := "Instagram Paid"
  platform := "instagram"
  trafficType := "paid"
  rules :=
    { utm_source := some { required := true, allowedValues := ["instagram"] }
      utm_medium := some { required := true, allowedValues := ["paid_social"] }
      utm_campaign := some { required := true, freeTextAllowed := true } }

/-- Modelled from the spec: Instagram organic. -/
def chInstagramOrganic : ChannelConfig where
  id := "instagram_organic"
  label := "Instagram Organic"
  platform := "instagram"
  trafficType := "organic"
  rules :=
    { utm_source := some { required := true, allowedValues := ["instagram"] }
      utm_medium := some { required := true, allowedValues := ["organic_social"] }
      utm_campaign := some { required := true, freeTextAllowed := true } }

/-- Modelled from the spec: Pinterest paid. -/
def chPinterestPaid : ChannelConfig where
  id := "pinterest_paid"
  label := "Pinterest Paid"
  platform := "pinterest"
  trafficType := "paid"
  rules :=
    { utm_source := some { required := true, allowedValues := ["pinterest"] }
      utm_medium := some { required := true, allowedValues := ["paid_social"] }
      utm_campaign := some { required := true, freeTextAllowed := true } }

/-- Modelled from the spec: Pinterest organic. -/
def chPinterestOrganic : ChannelConfig where
  id := "pinterest_organic"
  label := "Pinterest Organic"
  platform := "pinterest"
  trafficType := "organic"
  rules :=
    { utm_source := some { required := true, allowedValues := ["pinterest"] }
      utm_medium := some { required := true, allowedValues := ["organic_social"] }
      utm_campaign := some { required := true, freeTextAllowed := true } }

/-- Modelled from the spec: Email. -/
def chEmail : ChannelConfig where
  id := "email"
  label := "Email"
  platform := "email"
  trafficType := "email"
  rules :=
    { utm_source := some { required := true, allowedValues := ["newsletter"] }
      utm_medium := some { required := true, allowedValues := ["email"] }
      utm_campaign := some { required := true, freeTextAllowed := true } }

/-- Modelled from the spec: the full rules configuration. -/
def modelConfig : UtmRulesConfig where
  version := 1
  globalRules := modelGlobalRules
  channels := [chGoogleAds, chGoogleOrganic, chFacebookPaid, chFacebookOrganic,
    chInstagramPaid, chInstagramOrganic, chPinterestPaid, chPinterestOrganic, chEmail]

/-- C4: on every return path of `validateUtmParams` — unknown channel,
UTM-forbidding channel and normal evaluation — `isValid` holds exactly
when the blocking list is empty (independent of the advisory list), and
`hasWarnings` holds exactly when the advisory list is non-empty.  Proved
for every configuration, hence in particular for the deployed one. -/
theorem validateUtmParams_isValid_iff (cfg : UtmRulesConfig)
    (params : ParsedUTMParams) (channelId : String) :
    ((validateUtmParams cfg params channelId).isValid = true ↔
      (validateUtmParams cfg params channelId).errors = []) ∧
    ((validateUtmParams cfg params channelId).hasWarnings = true ↔
      (validateUtmParams cfg params channelId).warnings ≠ []) := by
  unfold validateUtmParams
  cases hch : getChannelById cfg channelId with
  | none => simp
  | some channel =>
    by_cases hd : channel.disallowUtm
    · simp only [hd, if_true]
      constructor
      · simp [List.isEmpty_iff]
      · simp
    · simp only [hd, Bool.false_eq_true, if_false]
      constructor
      · simp [List.isEmpty_iff]
      · simp [List.isEmpty_iff]

theorem formatError_param {g : GlobalRules} {ch : ChannelConfig} {k : UTMParamKey}
    {v : String} {m : ValidationMessage} (h : formatError g ch k v = some m) :
    m.param = some k := by
  unfold formatError at h
  dsimp only at h
  split_ifs at h
  · injection h with h2; rw [← h2]
  · injection h with h2; rw [← h2]
  · injection h with h2; rw [← h2]

theorem filterMap_param_filter_notmem (gf : UTMParamKey → Option ValidationMessage)
    (hgf : ∀ i m, gf i = some m → m.param = some i) :
    ∀ (keys : List UTMParamKey) (k : UTMParamKey), k ∉ keys →
      (keys.filterMap gf).filter (fun m => m.param = some k) = [] := by
  intro keys
  induction keys with
  | nil => simp
  | cons i rest ih =>
    intro k hk
    rw [List.filterMap_cons]
    cases hgi : gf i with
    | none => exact ih k (fun h => hk (List.mem_cons_of_mem _ h))
    | some msg =>
      rw [List.filter_cons]
      have hne : msg.param ≠ some k := by
        rw [hgf i msg hgi]
        intro he
        apply hk
        simp only [Option.some.injEq] at he
        rw [he]
        exact List.mem_cons_self _ _
      rw [if_neg (by simpa using hne)]
      exact ih k (fun h => hk (List.mem_cons_of_mem _ h))

theorem filterMap_param_filter_mem (gf : UTMParamKey → Option ValidationMessage)
    (hgf : ∀ i m, gf i = some m → m.param = some i) :
    ∀ (keys : List UTMParamKey) (k : UTMParamKey), keys.Nodup → k ∈ keys →
      (keys.filterMap gf).filter (fun m => m.param = some k) = (gf k).toList := by
  intro keys
  induction keys with
  | nil => simp
  | cons i rest ih =>
    intro k hnd hin
    rw [List.filterMap_cons]
    by_cases hik : k = i
    · subst hik
      have hrest : k ∉ rest := (List.nodup_cons.mp hnd).1
      cases hgi : gf k with
      | none =>
        simp only [Option.toList_none]
        exact filterMap_param_filter_notmem gf hgf rest k hrest
      | some msg =>
        rw [List.filter_cons]
        rw [if_pos (by simpa using hgf k msg hgi)]
        rw [filterMap_param_filter_notmem gf hgf rest k hrest]
        simp
    · have hin' : k ∈ rest := by
        rcases List.mem_cons.mp hin with h | h
        · exact absurd h hik
        · exact h
      cases hgi : gf i with
      | none => exact ih k (List.nodup_cons.mp hnd).2 hin'
      | some msg =>
        rw [List.filter_cons]
        have hne : msg.param ≠ some k := by
          rw [hgf i msg hgi]
          intro he
          simp only [Option.some.injEq] at he
          exact hik he.symm
        rw [if_neg (by simpa using hne)]
        exact ih k (List.nodup_cons.mp hnd).2 hin'

theorem mem_allParams (k : UTMParamKey) : k ∈ allParams := by
  cases k <;> simp [allParams]

theorem allParams_nodup : allParams.Nodup := by decide

theorem gfe_param (g : GlobalRules) (ch : ChannelConfig) (params : ParsedUTMParams) :
    ∀ i m,
      (fun param => match params.get param with
        | none => none
        | some value => if value = "" then none
          else formatError g ch param value) i = some m →
      m.param = some i := by
  intro i m h
  dsimp only at h
  cases hv : params.get i with
  | none => rw [hv] at h; exact absurd h (by simp)
  | some v =>
    rw [hv] at h
    dsimp only at h
    by_cases hev : v = ""
    · rw [if_pos hev] at h; exact absurd h (by simp)
    · rw [if_neg hev] at h; exact formatError_param h

theorem globalFormat_at_most_one (g : GlobalRules) (ch : ChannelConfig)
    (params : ParsedUTMParams) (k : UTMParamKey) :
    ((globalFormatErrors g ch params).filter
      (fun m => m.param = some k)).length ≤ 1 := by
  unfold globalFormatErrors
  rw [filterMap_param_filter_mem _ (gfe_param g ch params) allParams k
    allParams_nodup (mem_allParams k)]
  cases hpk : params.get k with
  | none => simp
  | some v =>
    dsimp only
    by_cases hev : v = ""
    · rw [if_pos hev]; simp
    · rw [if_neg hev]
      cases formatError g ch k v <;> simp

theorem globalFormat_spacing_case (g : GlobalRules) (ch : ChannelConfig)
    (params : ParsedUTMParams) (k : UTMParamKey) (v : String)
    (hv : params.get k = some v) (hne : v ≠ "")
    (hsp : g.disallowSpaces = true) (hs : hasSpaces v = true) :
    (globalFormatErrors g ch params).filter (fun m => m.param = some k) =
      [{ kind := MsgKind.error
         param := some k
         message := paramName k ++ " contains spaces: \"" ++ v ++ "\""
         suggestion := some (paramName k ++ "=" ++ cleanUtmValue v
           (((ch.rules.get k).map (fun r => r.allowKeywordTok)).getD false)) }] := by
  unfold globalFormatErrors
  rw [filterMap_param_filter_mem _ (gfe_param g ch params) allParams k
    allParams_nodup (mem_allParams k)]
  rw [hv]
  dsimp only
  rw [if_neg hne]
  unfold formatError
  rw [if_pos (by simp [hsp, hs])]
  rfl

theorem globalFormat_lowercase_case (g : GlobalRules) (ch : ChannelConfig)
    (params : ParsedUTMParams) (k : UTMParamKey) (v : String)
    (hv : params.get k = some v) (hne : v ≠ "")
    (hns : (g.disallowSpaces && hasSpaces v) = false)
    (hlc : (g.lowercaseOnly && !isLowercase v) = true) :
    (globalFormatErrors g ch params).filter (fun m => m.param = some k) =
      [{ kind := MsgKind.error
         param := some k
         message := paramName k ++ " must be lowercase: \"" ++ v ++ "\""
         suggestion := some (paramName k ++ "=" ++ cleanUtmValue v
           (((ch.rules.get k).map (fun r => r.allowKeywordTok)).getD false)) }] := by
  unfold globalFormatErrors
  rw [filterMap_param_filter_mem _ (gfe_param g ch params) allParams k
    allParams_nodup (mem_allParams k)]
  rw [hv]
  dsimp only
  rw [if_neg hne]
  unfold formatError
  rw [if_neg (by rw [hns]; simp), if_pos hlc]
  rfl

theorem globalFormat_pattern_case (g : GlobalRules) (ch : ChannelConfig)
    (params : ParsedUTMParams) (k : UTMParamKey) (v : String)
    (hv : params.get k = some v) (hne : v ≠ "")
    (hns : (g.disallowSpaces && hasSpaces v) = false)
    (hlc : (g.lowercaseOnly && !isLowercase v) = false)
    (hpat : isValidUtmValue v
      (((ch.rules.get k).map (fun r => r.allowKeywordTok)).getD false) = false) :
    (globalFormatErrors g ch params).filter (fun m => m.param = some k) =
      [{ kind := MsgKind.error
         param := some k
         message := paramName k ++
           " contains invalid characters. Only a-z, 0-9, and underscores are allowed: \"" ++
           v ++ "\""
         suggestion := some (paramName k ++ "=" ++ cleanUtmValue v
           (((ch.rules.get k).map (fun r => r.allowKeywordTok)).getD false)) }] := by
  unfold globalFormatErrors
  rw [filterMap_param_filter_mem _ (gfe_param g ch params) allParams k
    allParams_nodup (mem_allParams k)]
  rw [hv]
  dsimp only
  rw [if_neg hne]
  unfold formatError
  dsimp only
  rw [if_neg (by rw [hns]; simp), if_neg (by rw [hlc]; simp),
    if_pos (by rw [hpat]; simp)]
  rfl

/-- C3 (amended): the three global format checks are mutually exclusive
and fire with precedence spacing > lowercase > allowed-character-pattern:
the global format pass contributes at most one blocking finding per key;
a non-empty value with spaces (under the no-spaces global rule) gets
exactly the spacing finding, whatever else it violates; a value that
passes the spacing check but fails the lowercase check gets exactly the
lowercase finding, even when it also violates the character pattern; and
a value that passes both earlier checks but fails the pattern gets
exactly the pattern finding.  (The channel-specific pass may add a
further blocking finding for the same key, which is what refutes the
claim's "exactly one blocking finding" reading of `validateUtmParams` as
a whole.) -/
theorem globalFormat_precedence (g : GlobalRules) (ch : ChannelConfig)
    (params : ParsedUTMParams) :
    (∀ k : UTMParamKey,
      ((globalFormatErrors g ch params).filter
        (fun m => m.param = some k)).length ≤ 1) ∧
    (∀ (k : UTMParamKey) (v : String), params.get k = some v → v ≠ "" →
      g.disallowSpaces = true → hasSpaces v = true →
      (globalFormatErrors g ch params).filter (fun m => m.param = some k) =
        [{ kind := MsgKind.error
           param := some k
           message := paramName k ++ " contains spaces: \"" ++ v ++ "\""
           suggestion := some (paramName k ++ "=" ++ cleanUtmValue v
             (((ch.rules.get k).map (fun r => r.allowKeywordTok)).getD false)) }]) ∧
    (∀ (k : UTMParamKey) (v : String), params.get k = some v → v ≠ "" →
      (g.disallowSpaces && hasSpaces v) = false →
      (g.lowercaseOnly && !isLowercase v) = true →
      (globalFormatErrors g ch params).filter (fun m => m.param = some k) =
        [{ kind := MsgKind.error
           param := some k
           message := paramName k ++ " must be lowercase: \"" ++ v ++ "\""
           suggestion := some (paramName k ++ "=" ++ cleanUtmValue v
             (((ch.rules.get k).map (fun r => r.allowKeywordTok)).getD false)) }]) ∧
    (∀ (k : UTMParamKey) (v : String), params.get k = some v → v ≠ "" →
      (g.disallowSpaces && hasSpaces v) = false →
      (g.lowercaseOnly && !isLowercase v) = false →
      isValidUtmValue v
        (((ch.rules.get k).map (fun r => r.allowKeywordTok)).getD false) = false →
      (globalFormatErrors g ch params).filter (fun m => m.param = some k) =
        [{ kind := MsgKind.error
           param := some k
           message := paramName k ++
             " contains invalid characters. Only a-z, 0-9, and underscores are allowed: \"" ++
             v ++ "\""
           suggestion := some (paramName k ++ "=" ++ cleanUtmValue v
             (((ch.rules.get k).map (fun r => r.allowKeywordTok)).getD false)) }]) :=
  ⟨globalFormat_at_most_one g ch params,
   globalFormat_spacing_case g ch params,
   globalFormat_lowercase_case g ch params,
   globalFormat_pattern_case g ch params⟩

/-- The concrete parameter set of the C3 counterexample: a
`utm_medium` value that both contains a space and fails the
allowed-character pattern. -/
def pvPaidSocial : String := "Paid Social!"

/-- Counterexample parameters for C3. -/
def pexC3 : ParsedUTMParams where
  utm_source := some "facebook"
  utm_medium := some pvPaidSocial
  utm_campaign := some "x"

/-- C3 (counterexample): `"Paid Social!"` violates both the spacing and
the character-set global checks, yet `validateUtmParams` emits TWO
blocking findings for `utm_medium` — the spacing finding from the global
pass plus the allowed-value finding from the channel pass — refuting
"exactly one blocking finding for that key". -/
theorem validate_two_findings_for_medium :
    hasSpaces pvPaidSocial = true ∧
    isValidUtmValue pvPaidSocial false = false ∧
    ((validateUtmParams modelConfig pexC3 chFacebookPaid.id).errors.filter
      (fun m => m.param = some UTMParamKey.utm_medium)).length = 2 := by
  decide

/-- Parameters whose `utm_medium` value has no spaces but violates both
the lowercase check and the character pattern. -/
def pexC3low : ParsedUTMParams where
  utm_medium := some "Bad!"

/-- Parameters whose `utm_medium` value is lowercase and space-free but
violates the character pattern. -/
def pexC3pat : ParsedUTMParams where
  utm_medium := some "bad!"

/-- Witness instantiating `globalFormat_precedence` on concrete values:
`"Paid Social!"` gets exactly the spacing finding, the space-free
`"Bad!"` (violating lowercase AND pattern) gets exactly the lowercase
finding, and the lowercase space-free `"bad!"` gets exactly the pattern
finding. -/
theorem globalFormat_precedence_witness :
    ((globalFormatErrors modelGlobalRules chFacebookPaid pexC3).filter
      (fun m => m.param = some UTMParamKey.utm_medium) =
    [{ kind := MsgKind.error
       param := some UTMParamKey.utm_medium
       message := paramName UTMParamKey.utm_medium ++ " contains spaces: \"" ++
         pvPaidSocial ++ "\""
       suggestion := some (paramName UTMParamKey.utm_medium ++ "=" ++
         cleanUtmValue pvPaidSocial
           (((chFacebookPaid.rules.get UTMParamKey.utm_medium).map
             (fun r => r.allowKeywordTok)).getD false)) }]) ∧
    ((globalFormatErrors modelGlobalRules chFacebookPaid pexC3low).filter
      (fun m => m.param = some UTMParamKey.utm_medium) =
    [{ kind := MsgKind.error
       param := some UTMParamKey.utm_medium
       message := paramName UTMParamKey.utm_medium ++ " must be lowercase: \"" ++
         "Bad!" ++ "\""
       suggestion := some (paramName UTMParamKey.utm_medium ++ "=" ++
         cleanUtmValue "Bad!"
           (((chFacebookPaid.rules.get UTMParamKey.utm_medium).map
             (fun r => r.allowKeywordTok)).getD false)) }]) ∧
    ((globalFormatErrors modelGlobalRules chFacebookPaid pexC3pat).filter
      (fun m => m.param = some UTMParamKey.utm_medium) =
    [{ kind := MsgKind.error
       param := some UTMParamKey.utm_medium
       message := paramName UTMParamKey.utm_medium ++
         " contains invalid characters. Only a-z, 0-9, and underscores are allowed: \"" ++
         "bad!" ++ "\""
       suggestion := some (paramName UTMParamKey.utm_medium ++ "=" ++
         cleanUtmValue "bad!"
           (((chFacebookPaid.rules.get UTMParamKey.utm_medium).map
             (fun r => r.allowKeywordTok)).getD false)) }]) :=
  ⟨(globalFormat_precedence modelGlobalRules chFacebookPaid pexC3).2.1
      UTMParamKey.utm_medium pvPaidSocial (by decide) (by decide) (by decide)
      (by decide),
   (globalFormat_precedence modelGlobalRules chFacebookPaid pexC3low).2.2.1
      UTMParamKey.utm_medium "Bad!" (by decide) (by decide) (by decide) (by decide),
   (globalFormat_precedence modelGlobalRules chFacebookPaid pexC3pat).2.2.2
      UTMParamKey.utm_medium "bad!" (by decide) (by decide) (by decide) (by decide)
      (by decide)⟩

theorem requiredError_param {ch : ChannelConfig} {params : ParsedUTMParams} :
    ∀ i m, requiredErrorFor ch params i = some m → m.param = some i := by
  intro i m h
  unfold requiredErrorFor at h
  split_ifs at h
  injection h with h2
  rw [← h2]

theorem channelRuleFinding_param {ch : ChannelConfig} {params : ParsedUTMParams} :
    ∀ i m, (channelRuleFinding ch params i).1 = some m → m.param = some i := by
  intro i m h
  unfold channelRuleFinding at h
  cases hr : ch.rules.get i with
  | none => rw [hr] at h; exact absurd h (by simp)
  | some rule =>
    rw [hr] at h
    dsimp only at h
    by_cases hb : isBlankOpt (params.get i) = true
    · rw [if_pos hb] at h
      split_ifs at h <;> exact absurd h (by simp)
    · rw [if_neg hb] at h
      by_cases he : rule.allowedValues.isEmpty = true
      · rw [if_pos he] at h; exact absurd h (by simp)
      · rw [if_neg he] at h
        by_cases hc : rule.allowedValues.contains ((params.get i).getD "") = true
        · rw [if_pos hc] at h
          cases hp : rule.preferredValue with
          | none => rw [hp] at h; exact absurd h (by simp)
          | some preferred =>
            rw [hp] at h
            dsimp only at h
            split_ifs at h <;> exact absurd h (by simp)
        · rw [if_neg hc] at h
          by_cases hf : rule.freeTextAllowed = true
          · rw [if_pos hf] at h; exact absurd h (by simp)
          · rw [if_neg hf] at h
            dsimp only at h
            injection h with h2
            rw [← h2]

theorem channelRuleFinding_blank {ch : ChannelConfig} {params : ParsedUTMParams}
    {k : UTMParamKey} (hb : isBlankOpt (params.get k) = true) :
    (channelRuleFinding ch params k).1 = none := by
  unfold channelRuleFinding
  cases hr : ch.rules.get k with
  | none => rfl
  | some rule =>
    dsimp only
    rw [if_pos hb]
    split_ifs <;> rfl

theorem blank_nonempty_hasSpaces {v : String} (hne : v ≠ "")
    (hb : String.mk (jsTrim v.toList) = "") : hasSpaces v = true := by
  have hl : jsTrim v.toList = [] := by
    have := congrArg String.toList hb
    simpa using this
  unfold jsTrim at hl
  rw [List.reverse_eq_nil_iff, List.dropWhile_eq_nil_iff] at hl
  have hAnil : v.toList.dropWhile jsWhitespace = [] := by
    cases hA2 : v.toList.dropWhile jsWhitespace with
    | nil => rfl
    | cons a rest =>
      exfalso
      have hhead : jsWhitespace a = false :=
        @head?_dropWhile_false jsWhitespace v.toList a (by rw [hA2]; rfl)
      have htrue : jsWhitespace a = true := hl a (by rw [hA2]; simp)
      rw [hhead] at htrue
      exact Bool.noConfusion htrue
  have hall : ∀ c ∈ v.toList, jsWhitespace c := List.dropWhile_eq_nil_iff.mp hAnil
  have hvne : v.toList ≠ [] := by
    intro h0
    apply hne
    have : v = String.mk v.toList := rfl
    rw [this, h0]
  unfold hasSpaces
  cases hlist : v.toList with
  | nil => exact absurd hlist hvne
  | cons c cs =>
    have := hall c (by rw [hlist]; simp)
    simp [List.any_cons, this]

/-- C10: a required key whose value is present but whitespace-only
(non-empty, blank after trimming) receives exactly two blocking findings
from `validateUtmParams` — the missing-required finding (the required
check treats blank-after-trim as missing) and the spacing finding (the
format checks only skip absent or empty values), and nothing else. -/
theorem required_blank_two_findings (cfg : UtmRulesConfig) (params : ParsedUTMParams)
    (channelId : String) (channel : ChannelConfig)
    (hch : getChannelById cfg channelId = some channel)
    (hdis : channel.disallowUtm = false)
    (hsp : cfg.globalRules.disallowSpaces = true)
    (hnd : cfg.globalRules.requiredParams.Nodup)
    (k : UTMParamKey) (hkreq : k ∈ cfg.globalRules.requiredParams)
    (v : String) (hv : params.get k = some v) (hne : v ≠ "")
    (hblank : String.mk (jsTrim v.toList) = "") :
    (validateUtmParams cfg params channelId).errors.filter
        (fun m => m.param = some k) =
      [{ kind := MsgKind.error
         param := some k
         message := "Missing required parameter: " ++ paramName k
         suggestion := some (paramName k ++ "=" ++ getDefaultValue k channel) },
       { kind := MsgKind.error
         param := some k
         message := paramName k ++ " contains spaces: \"" ++ v ++ "\""
         suggestion := some (paramName k ++ "=" ++ cleanUtmValue v
           (((channel.rules.get k).map (fun r => r.allowKeywordTok)).getD false)) }] := by
  have hbl : isBlankOpt (params.get k) = true := by
    rw [hv]
    unfold isBlankOpt
    simp only [Bool.or_eq_true, decide_eq_true_eq]
    exact Or.inr hblank
  have hs : hasSpaces v = true := blank_nonempty_hasSpaces hne hblank
  unfold validateUtmParams
  rw [hch]
  dsimp only
  rw [hdis]
  simp only [Bool.false_eq_true, if_false]
  rw [List.filter_append, List.filter_append]
  unfold requiredParamErrors
  rw [filterMap_param_filter_mem _ requiredError_param _ k hnd hkreq]
  rw [globalFormat_spacing_case cfg.globalRules channel params k v hv hne hsp hs]
  have hchan : ((validateChannelRules channel params).1).filter
      (fun m => m.param = some k) =
      ((channelRuleFinding channel params k).1).toList := by
    unfold validateChannelRules
    exact filterMap_param_filter_mem _ channelRuleFinding_param allParams k
      allParams_nodup (mem_allParams k)
  rw [hchan, channelRuleFinding_blank hbl]
  unfold requiredErrorFor
  rw [if_pos hbl]
  simp

/-- The whitespace-only campaign value of the C10 witness. -/
def pvSpace : String := " "

/-- Witness parameters for C10. -/
def pexC10 : ParsedUTMParams where
  utm_source := some "facebook"
  utm_medium := some "paid_social"
  utm_campaign := some pvSpace

/-- Witness instantiating `required_blank_two_findings` on concrete
inputs: the whitespace-only `utm_campaign` gets both the missing-required
and the spacing finding. -/
theorem required_blank_two_findings_witness :
    (validateUtmParams modelConfig pexC10 chFacebookPaid.id).errors.filter
        (fun m => m.param = some UTMParamKey.utm_campaign) =
      [{ kind := MsgKind.error
         param := some UTMParamKey.utm_campaign
         message := "Missing required parameter: " ++ paramName UTMParamKey.utm_campaign
         suggestion := some (paramName UTMParamKey.utm_campaign ++ "=" ++
           getDefaultValue UTMParamKey.utm_campaign chFacebookPaid) },
       { kind := MsgKind.error
         param := some UTMParamKey.utm_campaign
         message := paramName UTMParamKey.utm_campaign ++ " contains spaces: \"" ++
           pvSpace ++ "\""
         suggestion := some (paramName UTMParamKey.utm_campaign ++ "=" ++
           cleanUtmValue pvSpace
             (((chFacebookPaid.rules.get UTMParamKey.utm_campaign).map
               (fun r => r.allowKeywordTok)).getD false)) }] :=
  required_blank_two_findings modelConfig pexC10 chFacebookPaid.id chFacebookPaid
    (by decide) (by decide) (by decide) (by decide) UTMParamKey.utm_campaign (by decide)
    pvSpace (by decide) (by decide) (by decide)

/-- JavaScript truthiness of an optional string (`undefined` and the
empty string are falsy). -/
def jsTruthy (o : Option String) : Bool :=
  !(o.getD "").isEmpty

/-- Lowercase an optional string (`value?.toLowerCase()`). -/
def lowerOpt (o : Option String) : Option String :=
  o.map (fun s => String.mk (jsLower s.toList))

/-- The detector's exact-match test for the source key
(`sourceRule?.allowedValues?.includes(source || '') ||
(sourceRule?.freeTextAllowed && source)`). -/
def codeSourceMatches (channel : ChannelConfig) (source : Option String) : Bool :=
  match channel.rules.utm_source with
  | some r => r.allowedValues.contains (source.getD "") ||
      (r.freeTextAllowed && jsTruthy source)
  | none => false

/-- The detector's medium test
(`mediumRule?.allowedValues?.includes(medium || '')`), also used by the
medium-only pass. -/
def codeMediumMatches (channel : ChannelConfig) (medium : Option String) : Bool :=
  match channel.rules.utm_medium with
  | some r => r.allowedValues.contains (medium.getD "")
  | none => false

/-- The detector's source-only test
(`sourceRule?.allowedValues?.includes(source)`). -/
def codeSourceOnly (channel : ChannelConfig) (source : Option String) : Bool :=
  match channel.rules.utm_source with
  | some r => r.allowedValues.contains (source.getD "")
  | none => false

/-- The body of `detectChannel` after the early return, operating on the
already-lowercased optional source and medium: the four matching passes
in source order. -/
def detectCore (cfg : UtmRulesConfig) (source medium : Option String) : Option String :=
  let channels := cfg.channels
  match channels.find? (fun channel => !channel.disallowUtm &&
      codeSourceMatches channel source && codeMediumMatches channel medium) with
  | some channel => some channel.id
  | none =>
    match (if jsTruthy source then
        channels.find? (fun c => !c.disallowUtm &&
          (c.trafficType = "paid" || c.trafficType = "paid_search") &&
          codeSourceOnly c source)
      else none) with
    | some c => some c.id
    | none =>
      match (if jsTruthy source then
          channels.find? (fun c => !c.disallowUtm && codeSourceOnly c source)
        else none) with
      | some c => some c.id
      | none =>
        match (if jsTruthy medium then
            channels.find? (fun c => !c.disallowUtm && codeMediumMatches c medium)
          else none) with
        | some c => some c.id
        | none =>
          match channels.find? (fun c => !c.disallowUtm) with
          | some c => if c.id = "" then none else some c.id
          | none => none

/-- `detectChannel` from `src/src/lib/detector.ts`, parametric in the
rules configuration its source reads from the module-level `rules.ts`. -/
def detectChannel (cfg : UtmRulesConfig) (params : ParsedUTMParams) : Option String :=
  if !jsTruthy params.utm_source && !jsTruthy params.utm_medium then none
  else detectCore cfg (lowerOpt params.utm_source) (lowerOpt params.utm_medium)

/-- Spec-side matching of a source value against a channel's source rule,
following the claim's words: the rule's allowed values (or free-text
acceptance) match the lowercased source; an absent source matches
nothing. -/
def specSourceMatches (ch : ChannelConfig) (source : Option String) : Bool :=
  match source with
  | none => false
  | some s =>
    match ch.rules.utm_source with
    | some r => r.allowedValues.contains s || r.freeTextAllowed
    | none => false

/-- Spec-side matching of a medium value against a channel's medium rule. -/
def specMediumMatches (ch : ChannelConfig) (medium : Option String) : Bool :=
  match medium with
  | none => false
  | some m =>
    match ch.rules.utm_medium with
    | some r => r.allowedValues.contains m
    | none => false

/-- Spec-side source-only matching: a present source that the rule's
allowed values contain. -/
def specSourceOnly (ch : ChannelConfig) (source : Option String) : Bool :=
  match ch.rules.utm_source with
  | some r => source.isSome && r.allowedValues.contains (source.getD "")
  | none => false

/-- Spec-side medium-only matching. -/
def specMediumOnly (ch : ChannelConfig) (medium : Option String) : Bool :=
  match ch.rules.utm_medium with
  | some r => medium.isSome && r.allowedValues.contains (medium.getD "")
  | none => false

/-- The four priority steps of the claim's detection algorithm on
normalized (absent-or-nonempty, lowercased) source and medium. -/
def detectSpecCore (cfg : UtmRulesConfig) (source medium : Option String) : Option String :=
  let step1 := cfg.channels.find? (fun c => !c.disallowUtm &&
    specSourceMatches c source && specMediumMatches c medium)
  let step2a := cfg.channels.find? (fun c => !c.disallowUtm &&
    (c.trafficType = "paid" || c.trafficType = "paid_search") && specSourceOnly c source)
  let step2b := cfg.channels.find? (fun c => !c.disallowUtm && specSourceOnly c source)
  let step3 := cfg.channels.find? (fun c => !c.disallowUtm && specMediumOnly c medium)
  let step4 := cfg.channels.find? (fun c => !c.disallowUtm)
  ((((step1.map (fun c => c.id)).or (step2a.map (fun c => c.id))).or
      (step2b.map (fun c => c.id))).or (step3.map (fun c => c.id))).or
    (step4.map (fun c => c.id))

/-- The channel-detection algorithm as the (amended) claim states it:
none when both source and medium are absent *or empty*; otherwise exact
source-and-medium match, then source-only match preferring paid and
paid-search channels, then source-only among all, then medium-only, then
the first channel that does not forbid tracking parameters.  Absent and
empty values are treated alike, lowercasing before comparison. -/
def detectChannelSpec (cfg : UtmRulesConfig) (params : ParsedUTMParams) : Option String :=
  let source := if jsTruthy params.utm_source then lowerOpt params.utm_source else none
  let medium := if jsTruthy params.utm_medium then lowerOpt params.utm_medium else none
  if source = none ∧ medium = none then none
  else detectSpecCore cfg source medium

theorem find?_ext {α : Type} {p q : α → Bool} :
    ∀ {l : List α}, (∀ a ∈ l, p a = q a) → l.find? p = l.find? q := by
  intro l
  induction l with
  | nil => intro _; rfl
  | cons a rest ih =>
    intro h
    simp only [List.find?]
    rw [h a (List.mem_cons_self a rest)]
    cases q a
    · exact ih (fun b hb => h b (List.mem_cons_of_mem _ hb))
    · rfl

theorem getD_empty_of_falsy {o : Option String} (h : jsTruthy o = false) :
    o.getD "" = "" := by
  unfold jsTruthy at h
  have h2 : (o.getD "").isEmpty = true := by
    revert h
    cases (o.getD "").isEmpty <;> simp
  exact (String.isEmpty_iff _).mp h2

theorem jsTruthy_lowerOpt (o : Option String) :
    jsTruthy (lowerOpt o) = jsTruthy o := by
  cases o with
  | none => rfl
  | some s =>
    unfold jsTruthy lowerOpt
    simp only [Option.map_some', Option.getD_some]
    by_cases hse : s = ""
    · subst hse; rfl
    · have h1 : (String.mk (jsLower s.toList)).isEmpty = false := by
        rw [Bool.eq_false_iff]
        intro hc
        rw [String.isEmpty_iff] at hc
        have hdata := congrArg String.data hc
        simp only [jsLower] at hdata
        rw [List.map_eq_nil_iff] at hdata
        exact hse (congrArg String.mk hdata)
      have h2 : s.isEmpty = false := by
        rw [Bool.eq_false_iff]
        intro hc
        exact hse ((String.isEmpty_iff _).mp hc)
      rw [h1, h2]

theorem codeSourceMatches_truthy {ch : ChannelConfig} {source : Option String}
    (h : jsTruthy source = true) :
    codeSourceMatches ch source = specSourceMatches ch source := by
  cases source with
  | none => exact absurd h (by decide)
  | some s =>
    unfold codeSourceMatches specSourceMatches
    cases ch.rules.utm_source with
    | none => rfl
    | some r => simp [h]

theorem codeSourceMatches_falsy {ch : ChannelConfig} {source : Option String}
    (hf : jsTruthy source = false)
    (h0 : ∀ r, ch.rules.utm_source = some r → r.allowedValues.contains "" = false) :
    codeSourceMatches ch source = false := by
  unfold codeSourceMatches
  cases hr : ch.rules.utm_source with
  | none => rfl
  | some r =>
    have h1 := getD_empty_of_falsy hf
    have h2 : "" ∉ r.allowedValues := by simpa using h0 r hr
    simp [h1, h2, hf]

theorem codeMediumMatches_truthy {ch : ChannelConfig} {m : String} :
    codeMediumMatches ch (some m) = specMediumMatches ch (some m) := by
  unfold codeMediumMatches specMediumMatches
  cases ch.rules.utm_medium <;> rfl

theorem codeMediumMatches_falsy {ch : ChannelConfig} {medium : Option String}
    (hf : jsTruthy medium = false)
    (h0 : ∀ r, ch.rules.utm_medium = some r → r.allowedValues.contains "" = false) :
    codeMediumMatches ch medium = false := by
  unfold codeMediumMatches
  cases hr : ch.rules.utm_medium with
  | none => rfl
  | some r =>
    have h1 := getD_empty_of_falsy hf
    have h2 : "" ∉ r.allowedValues := by simpa using h0 r hr
    simp [h1, h2]

theorem codeSourceOnly_eq_spec {ch : ChannelConfig} {s : String} :
    codeSourceOnly ch (some s) = specSourceOnly ch (some s) := by
  unfold codeSourceOnly specSourceOnly
  cases ch.rules.utm_source <;> simp

theorem specSourceOnly_none {ch : ChannelConfig} :
    specSourceOnly ch none = false := by
  unfold specSourceOnly
  cases ch.rules.utm_source <;> simp

theorem specMediumOnly_none {ch : ChannelConfig} :
    specMediumOnly ch none = false := by
  unfold specMediumOnly
  cases ch.rules.utm_medium <;> simp

theorem specMediumOnly_some {ch : ChannelConfig} {m : String} :
    specMediumOnly ch (some m) = codeMediumMatches ch (some m) := by
  unfold specMediumOnly codeMediumMatches
  cases ch.rules.utm_medium <;> simp

theorem specMediumMatches_none {ch : ChannelConfig} :
    specMediumMatches ch none = false := rfl

theorem specSourceMatches_none {ch : ChannelConfig} :
    specSourceMatches ch none = false := rfl

theorem jsTruthy_some_ne {s : String} (h : s ≠ "") : jsTruthy (some s) = true := by
  unfold jsTruthy
  simp only [Option.getD_some, Bool.not_eq_true']
  rw [Bool.eq_false_iff]
  intro hc
  exact h ((String.isEmpty_iff _).mp hc)

theorem detectCore_eq_specCore (cfg : UtmRulesConfig)
    (hid : ∀ ch ∈ cfg.channels, ch.id ≠ "")
    (hsrc0 : ∀ ch ∈ cfg.channels, ∀ r, ch.rules.utm_source = some r →
      r.allowedValues.contains "" = false)
    (hmed0 : ∀ ch ∈ cfg.channels, ∀ r, ch.rules.utm_medium = some r →
      r.allowedValues.contains "" = false)
    (source medium : Option String) :
    detectCore cfg source medium =
      detectSpecCore cfg (if jsTruthy source then source else none)
        (if jsTruthy medium then medium else none) := by
  unfold detectCore detectSpecCore
  dsimp only
  by_cases tS : jsTruthy source = true <;> by_cases tM : jsTruthy medium = true
  · -- both truthy
    simp only [tS, tM, eq_self_iff_true, if_true]
    have hE : cfg.channels.find? (fun channel => !channel.disallowUtm &&
        codeSourceMatches channel source && codeMediumMatches channel medium) =
        cfg.channels.find? (fun c => !c.disallowUtm &&
          specSourceMatches c source && specMediumMatches c medium) := by
      apply find?_ext
      intro ch _
      cases hmedv : medium with
      | none => rw [hmedv] at tM; exact absurd tM (by decide)
      | some y =>
        rw [codeSourceMatches_truthy tS, codeMediumMatches_truthy]
    rw [hE]
    cases h1 : cfg.channels.find? (fun c => !c.disallowUtm &&
        specSourceMatches c source && specMediumMatches c medium) with
    | some c => simp
    | none =>
      have h2 : cfg.channels.find? (fun c => !c.disallowUtm &&
          (c.trafficType = "paid" || c.trafficType = "paid_search") &&
          codeSourceOnly c source) =
          cfg.channels.find? (fun c => !c.disallowUtm &&
            (c.trafficType = "paid" || c.trafficType = "paid_search") &&
            specSourceOnly c source) := by
        apply find?_ext
        intro ch _
        cases hsv : source with
        | none => rw [hsv] at tS; exact absurd tS (by decide)
        | some x => rw [codeSourceOnly_eq_spec]
      rw [h2]
      cases h2v : cfg.channels.find? (fun c => !c.disallowUtm &&
          (c.trafficType = "paid" || c.trafficType = "paid_search") &&
          specSourceOnly c source) with
      | some c => simp
      | none =>
        have h3 : cfg.channels.find? (fun c => !c.disallowUtm && codeSourceOnly c source) =
            cfg.channels.find? (fun c => !c.disallowUtm && specSourceOnly c source) := by
          apply find?_ext
          intro ch _
          cases hsv : source with
          | none => rw [hsv] at tS; exact absurd tS (by decide)
          | some x => rw [codeSourceOnly_eq_spec]
        rw [h3]
        cases h3v : cfg.channels.find? (fun c => !c.disallowUtm &&
            specSourceOnly c source) with
        | some c => simp
        | none =>
          have h4 : cfg.channels.find? (fun c => !c.disallowUtm &&
              codeMediumMatches c medium) =
              cfg.channels.find? (fun c => !c.disallowUtm && specMediumOnly c medium) := by
            apply find?_ext
            intro ch _
            cases hmedv : medium with
            | none => rw [hmedv] at tM; exact absurd tM (by decide)
            | some y => rw [specMediumOnly_some]
          rw [h4]
          cases h4v : cfg.channels.find? (fun c => !c.disallowUtm &&
              specMediumOnly c medium) with
          | some c => simp
          | none =>
            cases h5 : cfg.channels.find? (fun c => !c.disallowUtm) with
            | some c =>
              dsimp only
              rw [if_neg (hid c (List.mem_of_find?_eq_some h5))]
              simp
            | none => simp
  · -- source truthy, medium falsy
    have tM' : jsTruthy medium = false := by revert tM; cases jsTruthy medium <;> simp
    simp only [tS, tM', eq_self_iff_true, if_true, Bool.false_eq_true, if_false]
    have hE : cfg.channels.find? (fun channel => !channel.disallowUtm &&
        codeSourceMatches channel source && codeMediumMatches channel medium) = none := by
      rw [List.find?_eq_none]
      intro ch hch
      rw [codeMediumMatches_falsy tM' (hmed0 ch hch)]
      simp
    have hS1 : cfg.channels.find? (fun c => !c.disallowUtm &&
        specSourceMatches c source && specMediumMatches c none) = none := by
      rw [List.find?_eq_none]
      intro ch hch
      rw [specMediumMatches_none]
      simp
    have hS3 : cfg.channels.find? (fun c => !c.disallowUtm &&
        specMediumOnly c none) = none := by
      rw [List.find?_eq_none]
      intro ch hch
      rw [specMediumOnly_none]
      simp
    rw [hE, hS1, hS3]
    have h2 : cfg.channels.find? (fun c => !c.disallowUtm &&
        (c.trafficType = "paid" || c.trafficType = "paid_search") &&
        codeSourceOnly c source) =
        cfg.channels.find? (fun c => !c.disallowUtm &&
          (c.trafficType = "paid" || c.trafficType = "paid_search") &&
          specSourceOnly c source) := by
      apply find?_ext
      intro ch _
      cases hsv : source with
      | none => rw [hsv] at tS; exact absurd tS (by decide)
      | some x => rw [codeSourceOnly_eq_spec]
    rw [h2]
    cases h2v : cfg.channels.find? (fun c => !c.disallowUtm &&
        (c.trafficType = "paid" || c.trafficType = "paid_search") &&
        specSourceOnly c source) with
    | some c => simp
    | none =>
      have h3 : cfg.channels.find? (fun c => !c.disallowUtm && codeSourceOnly c source) =
          cfg.channels.find? (fun c => !c.disallowUtm && specSourceOnly c source) := by
        apply find?_ext
        intro ch _
        cases hsv : source with
        | none => rw [hsv] at tS; exact absurd tS (by decide)
        | some x => rw [codeSourceOnly_eq_spec]
      rw [h3]
      cases h3v : cfg.channels.find? (fun c => !c.disallowUtm &&
          specSourceOnly c source) with
      | some c => simp
      | none =>
        cases h5 : cfg.channels.find? (fun c => !c.disallowUtm) with
        | some c =>
          dsimp only
          rw [if_neg (hid c (List.mem_of_find?_eq_some h5))]
          simp
        | none => simp
  · -- source falsy, medium truthy
    have tS' : jsTruthy source = false := by revert tS; cases jsTruthy source <;> simp
    simp only [tS', tM, eq_self_iff_true, if_true, Bool.false_eq_true, if_false]
    have hE : cfg.channels.find? (fun channel => !channel.disallowUtm &&
        codeSourceMatches channel source && codeMediumMatches channel medium) = none := by
      rw [List.find?_eq_none]
      intro ch hch
      rw [codeSourceMatches_falsy tS' (hsrc0 ch hch)]
      simp
    have hS1 : cfg.channels.find? (fun c => !c.disallowUtm &&
        specSourceMatches c none && specMediumMatches c medium) = none := by
      rw [List.find?_eq_none]
      intro ch hch
      rw [specSourceMatches_none]
      simp
    have hS2a : cfg.channels.find? (fun c => !c.disallowUtm &&
        (c.trafficType = "paid" || c.trafficType = "paid_search") &&
        specSourceOnly c none) = none := by
      rw [List.find?_eq_none]
      intro ch hch
      rw [specSourceOnly_none]
      simp
    have hS2b : cfg.channels.find? (fun c => !c.disallowUtm &&
        specSourceOnly c none) = none := by
      rw [List.find?_eq_none]
      intro ch hch
      rw [specSourceOnly_none]
      simp
    rw [hE, hS1, hS2a, hS2b]
    have h4 : cfg.channels.find? (fun c => !c.disallowUtm &&
        codeMediumMatches c medium) =
        cfg.channels.find? (fun c => !c.disallowUtm && specMediumOnly c medium) := by
      apply find?_ext
      intro ch _
      cases hmedv : medium with
      | none => rw [hmedv] at tM; exact absurd tM (by decide)
      | some y => rw [specMediumOnly_some]
    rw [h4]
    cases h4v : cfg.channels.find? (fun c => !c.disallowUtm &&
        specMediumOnly c medium) with
    | some c => simp
    | none =>
      cases h5 : cfg.channels.find? (fun c => !c.disallowUtm) with
      | some c =>
        dsimp only
        rw [if_neg (hid c (List.mem_of_find?_eq_some h5))]
        simp
      | none => simp
  · -- both falsy
    have tS' : jsTruthy source = false := by revert tS; cases jsTruthy source <;> simp
    have tM' : jsTruthy medium = false := by revert tM; cases jsTruthy medium <;> simp
    simp only [tS', tM', Bool.false_eq_true, if_false]
    have hE : cfg.channels.find? (fun channel => !channel.disallowUtm &&
        codeSourceMatches channel source && codeMediumMatches channel medium) = none := by
      rw [List.find?_eq_none]
      intro ch hch
      rw [codeMediumMatches_falsy tM' (hmed0 ch hch)]
      simp
    have hS1 : cfg.channels.find? (fun c => !c.disallowUtm &&
        specSourceMatches c none && specMediumMatches c none) = none := by
      rw [List.find?_eq_none]
      intro ch hch
      rw [specMediumMatches_none]
      simp
    have hS2a : cfg.channels.find? (fun c => !c.disallowUtm &&
        (c.trafficType = "paid" || c.trafficType = "paid_search") &&
        specSourceOnly c none) = none := by
      rw [List.find?_eq_none]
      intro ch hch
      rw [specSourceOnly_none]
      simp
    have hS2b : cfg.channels.find? (fun c => !c.disallowUtm &&
        specSourceOnly c none) = none := by
      rw [List.find?_eq_none]
      intro ch hch
      rw [specSourceOnly_none]
      simp
    have hS3 : cfg.channels.find? (fun c => !c.disallowUtm &&
        specMediumOnly c none) = none := by
      rw [List.find?_eq_none]
      intro ch hch
      rw [specMediumOnly_none]
      simp
    rw [hE, hS1, hS2a, hS2b, hS3]
    cases h5 : cfg.channels.find? (fun c => !c.disallowUtm) with
    | some c =>
      dsimp only
      rw [if_neg (hid c (List.mem_of_find?_eq_some h5))]
      simp
    | none => simp

/-- C5 (amended): `detectChannel` equals the four-step priority algorithm
of the claim, with "absent" amended to "absent or empty" — the code
treats a present-but-empty source or medium exactly like a missing one
(both-empty input returns none instead of falling back).  Stated for any
configuration with non-empty channel ids and no empty string among
allowed values (the modelled configuration satisfies both). -/
theorem detectChannel_eq_spec (cfg : UtmRulesConfig)
    (hid : ∀ ch ∈ cfg.channels, ch.id ≠ "")
    (hsrc0 : ∀ ch ∈ cfg.channels,
      ((ch.rules.utm_source.map (fun r => r.allowedValues.contains "")).getD false) = false)
    (hmed0 : ∀ ch ∈ cfg.channels,
      ((ch.rules.utm_medium.map (fun r => r.allowedValues.contains "")).getD false) = false)
    (params : ParsedUTMParams) :
    detectChannel cfg params = detectChannelSpec cfg params := by
  have hsrc0' : ∀ ch ∈ cfg.channels, ∀ r, ch.rules.utm_source = some r →
      r.allowedValues.contains "" = false := by
    intro ch hch r hr
    have := hsrc0 ch hch
    rw [hr] at this
    simpa using this
  have hmed0' : ∀ ch ∈ cfg.channels, ∀ r, ch.rules.utm_medium = some r →
      r.allowedValues.contains "" = false := by
    intro ch hch r hr
    have := hmed0 ch hch
    rw [hr] at this
    simpa using this
  unfold detectChannel detectChannelSpec
  dsimp only
  have hcore := detectCore_eq_specCore cfg hid hsrc0' hmed0'
    (lowerOpt params.utm_source) (lowerOpt params.utm_medium)
  rw [jsTruthy_lowerOpt, jsTruthy_lowerOpt] at hcore
  by_cases tS : jsTruthy params.utm_source = true <;>
    by_cases tM : jsTruthy params.utm_medium = true
  · have hsne : lowerOpt params.utm_source ≠ none := by
      cases hs : params.utm_source with
      | none => rw [hs] at tS; exact absurd tS (by decide)
      | some s => simp [lowerOpt]
    simp only [tS, tM, Bool.not_true, Bool.and_self, Bool.false_eq_true, if_false,
      eq_self_iff_true, if_true]
    rw [if_neg (fun hand => hsne hand.1)]
    rw [hcore]
    simp [tS, tM]
  · have tM' : jsTruthy params.utm_medium = false := by
      revert tM; cases jsTruthy params.utm_medium <;> simp
    have hsne : lowerOpt params.utm_source ≠ none := by
      cases hs : params.utm_source with
      | none => rw [hs] at tS; exact absurd tS (by decide)
      | some s => simp [lowerOpt]
    simp only [tS, tM', Bool.not_true, Bool.not_false, Bool.and_true, Bool.true_and,
      Bool.false_and, Bool.and_false, Bool.false_eq_true, if_false,
      eq_self_iff_true, if_true]
    rw [if_neg (fun hand => hsne hand.1)]
    rw [hcore]
    simp [tS, tM']
  · have tS' : jsTruthy params.utm_source = false := by
      revert tS; cases jsTruthy params.utm_source <;> simp
    have hmne : lowerOpt params.utm_medium ≠ none := by
      cases hm : params.utm_medium with
      | none => rw [hm] at tM; exact absurd tM (by decide)
      | some m => simp [lowerOpt]
    simp only [tS', tM, Bool.not_true, Bool.not_false, Bool.and_true, Bool.true_and,
      Bool.false_and, Bool.and_false, Bool.false_eq_true, if_false,
      eq_self_iff_true, if_true]
    rw [if_neg (fun hand => hmne hand.2)]
    rw [hcore]
    simp [tS', tM]
  · have tS' : jsTruthy params.utm_source = false := by
      revert tS; cases jsTruthy params.utm_source <;> simp
    have tM' : jsTruthy params.utm_medium = false := by
      revert tM; cases jsTruthy params.utm_medium <;> simp
    simp [tS', tM']

/-- The present-but-empty parameter set of the C5 counterexample. -/
def pexC5 : ParsedUTMParams where
  utm_source := some ""
  utm_medium := some ""

/-- C5 (counterexample): both source and medium present but empty — they
are not "absent", so the claim's priority order would resolve to the
fallback (the first non-forbidding channel, which exists), yet
`detectChannel` returns none. -/
theorem detectChannel_empty_strings_none :
    detectChannel modelConfig pexC5 = none ∧
    modelConfig.channels.find? (fun c => !c.disallowUtm) = some chGoogleAds := by
  decide

/-- Witness parameters for the amended C5 theorem. -/
def pexC5w : ParsedUTMParams where
  utm_source := some "google"
  utm_medium := some "cpc"

/-- Witness instantiating `detectChannel_eq_spec` on the modelled
configuration and a concrete parameter set. -/
theorem detectChannel_eq_spec_witness :
    detectChannel modelConfig pexC5w = detectChannelSpec modelConfig pexC5w :=
  detectChannel_eq_spec modelConfig (by decide) (by decide) (by decide) pexC5w

/-- Split a character list at the first occurrence of `sep`: the part
before it, and (when found) the part after it. -/
def splitFirst (sep : Char) : List Char → List Char × Option (List Char)
  | [] => ([], none)
  | c :: rest =>
    if c = sep then ([], some rest)
    else
      let r := splitFirst sep rest
      (c :: r.1, r.2)

/-- Value of a hexadecimal digit, both cases. -/
def hexDigitVal (c : Char) : Option Nat :=
  if '0' ≤ c ∧ c ≤ '9' then some (c.toNat - 48)
  else if 'A' ≤ c ∧ c ≤ 'F' then some (c.toNat - 55)
  else if 'a' ≤ c ∧ c ≤ 'f' then some (c.toNat - 87)
  else none

/-- Uppercase hexadecimal digit of a value below 16. -/
def hexDigitChar (n : Nat) : Char :=
  if n < 10 then Char.ofNat (48 + n) else Char.ofNat (55 + n)

/-- The two uppercase hexadecimal digits of a byte. -/
def toHexPair (b : Nat) : List Char :=
  [hexDigitChar (b / 16), hexDigitChar (b % 16)]

/-- UTF-8 encoding of a code point as its byte values. -/
def utf8EncodeNat (n : Nat) : List Nat :=
  if n < 0x80 then [n]
  else if n < 0x800 then [0xC0 + n / 64, 0x80 + n % 64]
  else if n < 0x10000 then [0xE0 + n / 4096, 0x80 + (n / 64) % 64, 0x80 + n % 64]
  else [0xF0 + n / 262144, 0x80 + (n / 4096) % 64, 0x80 + (n / 64) % 64, 0x80 + n % 64]

/-- Lenient UTF-8 decoding, written as a byte-at-a-time state machine
(`pending` continuation bytes still expected, `acc` the partial code
point): well-formed sequences produced by `utf8EncodeNat` decode
exactly; malformed input yields replacement characters. -/
def utf8DecGo : Nat → Nat → List Nat → List Char
  | pending, _, [] => if pending = 0 then [] else ['�']
  | pending, acc, b :: rest =>
    if pending = 0 then
      if b < 0x80 then Char.ofNat b :: utf8DecGo 0 0 rest
      else if b < 0xC0 then '�' :: utf8DecGo 0 0 rest
      else if b < 0xE0 then utf8DecGo 1 (b - 0xC0) rest
      else if b < 0xF0 then utf8DecGo 2 (b - 0xE0) rest
      else if b < 0xF8 then utf8DecGo 3 (b - 0xF0) rest
      else '�' :: utf8DecGo 0 0 rest
    else
      if 0x80 ≤ b ∧ b < 0xC0 then
        (if pending = 1 then Char.ofNat (acc * 64 + (b - 0x80)) :: utf8DecGo 0 0 rest
         else utf8DecGo (pending - 1) (acc * 64 + (b - 0x80)) rest)
      else '�' :: utf8DecGo 0 0 rest

/-- UTF-8 decoding of a byte list. -/
def utf8DecodeNat (l : List Nat) : List Char :=
  utf8DecGo 0 0 l

/-- Characters serialized verbatim by the
`application/x-www-form-urlencoded` serializer. -/
def urlencodedUnreserved (c : Char) : Bool :=
  ('a' ≤ c && c ≤ 'z') || ('A' ≤ c && c ≤ 'Z') || ('0' ≤ c && c ≤ '9') ||
    c = '*' || c = '-' || c = '.' || c = '_'

/-- Encode one character for a query-string component. -/
def encodeQueryChar (c : Char) : List Char :=
  if c = ' ' then ['+']
  else if urlencodedUnreserved c then [c]
  else (utf8EncodeNat c.toNat).flatMap (fun b => '%' :: toHexPair b)

/-- `application/x-www-form-urlencoded` serialization of a component. -/
def encodeQueryComponent (s : List Char) : List Char :=
  s.flatMap encodeQueryChar

/-- First decoding stage of a query component: `+` becomes a space byte,
`%XX` a byte, any other character its UTF-8 bytes. -/
def queryTokensToBytes : List Char → List Nat
  | [] => []
  | '+' :: rest => 32 :: queryTokensToBytes rest
  | '%' :: h1 :: h2 :: rest =>
    (match hexDigitVal h1, hexDigitVal h2 with
     | some a, some b => (16 * a + b) :: queryTokensToBytes rest
     | _, _ => 37 :: queryTokensToBytes (h1 :: h2 :: rest))
  | c :: rest => utf8EncodeNat c.toNat ++ queryTokensToBytes rest

/-- Decode one query-string component. -/
def decodeQueryComponent (s : List Char) : List Char :=
  utf8DecodeNat (queryTokensToBytes s)

/-- Split a query string into its `&`-separated segments. -/
def splitOnAmp : List Char → List (List Char)
  | [] => [[]]
  | c :: rest =>
    if c = '&' then [] :: splitOnAmp rest
    else
      match splitOnAmp rest with
      | [] => [[c]]
      | g :: gs => (c :: g) :: gs

/-- Parse one `key=value` segment (no `=` means an empty value). -/
def parseQueryPair (seg : List Char) : String × String :=
  match splitFirst '=' seg with
  | (k, some v) => (String.mk (decodeQueryComponent k), String.mk (decodeQueryComponent v))
  | (k, none) => (String.mk (decodeQueryComponent k), "")

/-- Parse a query string into its ordered key-value pairs (empty
segments are skipped, as `URLSearchParams` does). -/
def parseQueryString (s : List Char) : List (String × String) :=
  ((splitOnAmp s).filter (fun seg => !seg.isEmpty)).map parseQueryPair

/-- Serialize ordered key-value pairs back to a query string. -/
def serializeQuery : List (String × String) → List Char
  | [] => []
  | [p] => encodeQueryComponent p.1.toList ++ '=' :: encodeQueryComponent p.2.toList
  | p :: q :: rest =>
    encodeQueryComponent p.1.toList ++ '=' :: encodeQueryComponent p.2.toList ++
      '&' :: serializeQuery (q :: rest)

/-- The model of a parsed WHATWG `URL` restricted to the behaviour the
sources rely on: the part before the query kept verbatim, the query as
decoded ordered pairs, the fragment kept verbatim. -/
structure UrlModel where
  base : List Char
  query : List (String × String)
  fragment : Option (List Char)
deriving DecidableEq, Repr

/-- Validity of the pre-query part for the model of `new URL`: an
explicit `http://` or `https://` scheme followed by a non-empty
authority (the only failure the embedded code can hit, since it always
supplies a scheme). -/
def validBase (b : List Char) : Bool :=
  (decide (List.isPrefixOf ['h','t','t','p',':','/','/'] b) &&
    authOk (b.drop 7)) ||
  (decide (List.isPrefixOf ['h','t','t','p','s',':','/','/'] b) &&
    authOk (b.drop 8))
where
  /-- Non-empty authority that does not immediately end. -/
  authOk (rest : List Char) : Bool :=
    !rest.isEmpty && rest.head? ≠ some '/'

/-- Model of `new URL(s)`: split off the fragment at the first `#`, the
query at the first `?`, parse the query pairs, fail on an invalid base. -/
def urlParse (l : List Char) : Option UrlModel :=
  let fr := splitFirst '#' l
  let qu := splitFirst '?' fr.1
  if validBase qu.1 then
    some { base := qu.1
           query := parseQueryString (qu.2.getD [])
           fragment := fr.2 }
  else none

/-- Model of `url.toString()` for a URL whose query was rebuilt by the
code: the query separator appears only when there are pairs. -/
def serializeUrl (u : UrlModel) : List Char :=
  u.base ++ (if u.query.isEmpty then [] else '?' :: serializeQuery u.query) ++
    (match u.fragment with
     | some f => '#' :: f
     | none => [])

/-- `url.searchParams.get(k)`: the value of the first pair with key `k`. -/
def getParamValue (ps : List (String × String)) (k : String) : Option String :=
  (ps.find? (fun p => p.1 = k)).map (fun p => p.2)

/-- `url.searchParams.set(k, v)`: replace the value at the first
occurrence of `k` and drop later occurrences, else append. -/
def setParam : List (String × String) → String → String → List (String × String)
  | [], k, v => [(k, v)]
  | (k', v') :: rest, k, v =>
    if k' = k then (k, v) :: rest.filter (fun p => p.1 ≠ k)
    else (k', v') :: setParam rest k v

example : (urlParse ("https://a.com?x=1&utm_source=g%20o#f").toList).map (fun u => u.query) =
  some [("x", "1"), ("utm_source", "g o")] := by decide
example : serializeQuery [("a b", "c&d")] = ("a+b=c%26d").toList := by decide
example : (decodeQueryComponent (encodeQueryComponent ("ø x?&=".toList))) = "ø x?&=".toList := by decide

/-- The parser's error taxonomy (`parser.ts` reports these as messages;
the spec names them EmptyInput, MalformedQuery and InvalidUrl). -/
inductive ParseErr where
  | emptyInput
  | malformedQuery
  | invalidUrl
deriving DecidableEq, Repr

deriving instance DecidableEq for Except

/-- The scheme-defaulting step shared by `parseUrl` and `buildCleanUrl`:
prepend `https://` unless the string starts with `http://` or
`https://`. -/
def withHttpsScheme (l : List Char) : List Char :=
  if List.isPrefixOf (['h','t','t','p',':','/','/']) l ||
      List.isPrefixOf (['h','t','t','p','s',':','/','/']) l then l
  else ['h','t','t','p','s',':','/','/'] ++ l

/-- `parseUrl` from `parser.ts`: trim, reject blank input, reject more
than one `?`, default the scheme, parse as a URL and extract the five
tracking keys (a key present with an empty value is recorded as present). -/
def parseUrl (input : String) : Except ParseErr (ParsedUTMParams × String) :=
  let trimmed := jsTrim input.toList
  if trimmed.isEmpty then .error .emptyInput
  else if 1 < trimmed.count '?' then .error .malformedQuery
  else
    match urlParse (withHttpsScheme trimmed) with
    | none => .error .invalidUrl
    | some url =>
      let params : ParsedUTMParams :=
        { utm_source := getParamValue url.query "utm_source"
          utm_medium := getParamValue url.query "utm_medium"
          utm_campaign := getParamValue url.query "utm_campaign"
          utm_content := getParamValue url.query "utm_content"
          utm_term := getParamValue url.query "utm_term" }
      .ok (params, String.mk trimmed)

example : parseUrl "  " = .error .emptyInput := by decide
example : parseUrl "site.com??a=1" = .error .malformedQuery := by decide
example : (parseUrl "example.com?utm_source=Google&utm_medium=cpc").toOption.map
    (fun r => r.1.utm_source) = some (some "Google") := by decide

/-- The C7 counterexample input: a single `?`, inside the fragment. -/
def urlFragQ : String := "site.com#a?b?c"

/-- C7 (counterexample): `parseUrl` counts every `?` of the trimmed
input, including those after `#` — this input has no `?` at all before
the fragment, yet parsing fails with MalformedQuery. -/
theorem parseUrl_counts_fragment_qmarks :
    parseUrl urlFragQ = .error .malformedQuery ∧
    ((jsTrim urlFragQ.toList).takeWhile (fun c => c ≠ '#')).count '?' ≤ 1 := by
  decide

/-- C7 (amended): `parseUrl` fails with MalformedQuery exactly when the
trimmed input is non-empty and contains more than one `?` anywhere —
occurrences inside the fragment included. -/
theorem parseUrl_malformedQuery_iff (input : String) :
    parseUrl input = .error .malformedQuery ↔
      (!(jsTrim input.toList).isEmpty) = true ∧
        1 < (jsTrim input.toList).count '?' := by
  unfold parseUrl
  dsimp only
  by_cases hem : (jsTrim input.toList).isEmpty = true
  · rw [if_pos hem]
    simp only [List.isEmpty_iff] at hem
    simp [hem]
    exact fun h => absurd hem h
  · rw [if_neg hem]
    simp only [List.isEmpty_iff] at hem
    by_cases hc : 1 < (jsTrim input.toList).count '?'
    · rw [if_pos hc]
      simp [hem, hc]
      exact ⟨hem, hc⟩
    · rw [if_neg hc]
      cases urlParse (withHttpsScheme (jsTrim input.toList)) <;> simp [hem, hc] <;>
        exact fun h => Nat.le_of_not_lt hc

theorem char_toNat_lt (c : Char) : c.toNat < 0x110000 := by
  have h := c.valid
  unfold UInt32.isValidChar Nat.isValidChar at h
  unfold Char.toNat
  rcases h with h | h <;> omega

theorem utf8EncodeNat_lt256 {n : Nat} (h : n < 0x110000) :
    ∀ b ∈ utf8EncodeNat n, b < 256 := by
  unfold utf8EncodeNat
  split_ifs with h1 h2 h3 <;> intro b hb <;> simp only [List.mem_cons,
    List.mem_singleton, List.not_mem_nil, or_false] at hb
  · omega
  · rcases hb with hb | hb <;> omega
  · rcases hb with hb | hb | hb <;> omega
  · rcases hb with hb | hb | hb | hb <;> omega

theorem utf8_round (c : Char) (bs : List Nat) :
    utf8DecodeNat (utf8EncodeNat c.toNat ++ bs) = c :: utf8DecodeNat bs := by
  have hlt := char_toNat_lt c
  have hofn := Char.ofNat_toNat c
  unfold utf8DecodeNat utf8EncodeNat
  split_ifs with h1 h2 h3
  · simp only [List.cons_append, List.nil_append]
    rw [utf8DecGo]
    rw [if_pos rfl, if_pos h1, hofn]
  · simp only [List.cons_append, List.nil_append]
    rw [utf8DecGo]
    rw [if_pos rfl, if_neg (by omega), if_neg (by omega), if_pos (by omega)]
    rw [utf8DecGo]
    rw [if_neg (by omega), if_pos (by constructor <;> omega), if_pos rfl]
    have hv : (0xC0 + c.toNat / 64 - 0xC0) * 64 + (0x80 + c.toNat % 64 - 0x80) =
        c.toNat := by omega
    rw [hv, hofn]
  · simp only [List.cons_append, List.nil_append]
    rw [utf8DecGo]
    rw [if_pos rfl, if_neg (by omega), if_neg (by omega), if_neg (by omega),
      if_pos (by omega)]
    rw [utf8DecGo]
    rw [if_neg (by omega), if_pos (by constructor <;> omega), if_neg (by omega)]
    rw [utf8DecGo]
    rw [if_neg (by omega), if_pos (by constructor <;> omega), if_pos (by omega)]
    have hv : ((0xE0 + c.toNat / 4096 - 0xE0) * 64 +
        (0x80 + c.toNat / 64 % 64 - 0x80)) * 64 + (0x80 + c.toNat % 64 - 0x80) =
        c.toNat := by omega
    rw [hv, hofn]
  · simp only [List.cons_append, List.nil_append]
    rw [utf8DecGo]
    rw [if_pos rfl, if_neg (by omega), if_neg (by omega), if_neg (by omega),
      if_neg (by omega), if_pos (by omega)]
    rw [utf8DecGo]
    rw [if_neg (by omega), if_pos (by constructor <;> omega), if_neg (by omega)]
    rw [utf8DecGo]
    rw [if_neg (by omega), if_pos (by constructor <;> omega), if_neg (by omega)]
    rw [utf8DecGo]
    rw [if_neg (by omega), if_pos (by constructor <;> omega), if_pos (by omega)]
    have hv : (((0xF0 + c.toNat / 262144 - 0xF0) * 64 +
        (0x80 + c.toNat / 4096 % 64 - 0x80)) * 64 +
        (0x80 + c.toNat / 64 % 64 - 0x80)) * 64 + (0x80 + c.toNat % 64 - 0x80) =
        c.toNat := by omega
    rw [hv, hofn]

theorem qtb_plus (rest : List Char) :
    queryTokensToBytes ('+' :: rest) = 32 :: queryTokensToBytes rest := rfl

theorem qtb_pct (h1 h2 : Char) (rest : List Char) :
    queryTokensToBytes ('%' :: h1 :: h2 :: rest) =
      (match hexDigitVal h1, hexDigitVal h2 with
       | some a, some b => (16 * a + b) :: queryTokensToBytes rest
       | _, _ => 37 :: queryTokensToBytes (h1 :: h2 :: rest)) := rfl

theorem qtb_other (c : Char) (rest : List Char) (hp : c ≠ '+') (hpc : c ≠ '%') :
    queryTokensToBytes (c :: rest) = utf8EncodeNat c.toNat ++ queryTokensToBytes rest := by
  rw [queryTokensToBytes]
  · exact fun h => hp h
  · exact fun _ _ _ hc _ => hpc hc

theorem hexDigitVal_hexDigitChar (n : Nat) (h : n < 16) :
    hexDigitVal (hexDigitChar n) = some n := by
  interval_cases n <;> decide

theorem hex_round (b : Nat) (h : b < 256) (rest : List Char) :
    queryTokensToBytes ('%' :: (toHexPair b ++ rest)) = b :: queryTokensToBytes rest := by
  have h1 : hexDigitVal (hexDigitChar (b / 16)) = some (b / 16) :=
    hexDigitVal_hexDigitChar _ (by omega)
  have h2 : hexDigitVal (hexDigitChar (b % 16)) = some (b % 16) :=
    hexDigitVal_hexDigitChar _ (by omega)
  simp only [toHexPair, List.cons_append, List.nil_append]
  rw [qtb_pct, h1, h2]
  dsimp only
  have hv : 16 * (b / 16) + b % 16 = b := by omega
  rw [hv]

theorem pct_bytes (bs : List Nat) (hb : ∀ b ∈ bs, b < 256) (rest : List Char) :
    queryTokensToBytes (bs.flatMap (fun b => '%' :: toHexPair b) ++ rest) =
      bs ++ queryTokensToBytes rest := by
  induction bs with
  | nil => simp
  | cons b t ih =>
    simp only [List.flatMap_cons, List.cons_append, List.append_assoc]
    rw [hex_round b (hb b (by simp))]
    rw [ih (fun x hx => hb x (by simp [hx]))]

theorem unreserved_ne (c : Char) (h : urlencodedUnreserved c = true) :
    c ≠ '+' ∧ c ≠ '%' := by
  constructor <;> intro he <;> subst he <;> exact absurd h (by decide)

theorem tok_enc (c : Char) (rest : List Char) :
    queryTokensToBytes (encodeQueryChar c ++ rest) =
      utf8EncodeNat c.toNat ++ queryTokensToBytes rest := by
  unfold encodeQueryChar
  split_ifs with hsp hunres
  · subst hsp
    rw [List.singleton_append, qtb_plus]
    have h32 : utf8EncodeNat (Char.toNat ' ') = [32] := by decide
    rw [h32, List.singleton_append]
  · have hne := unreserved_ne c hunres
    rw [List.singleton_append, qtb_other c rest hne.1 hne.2]
  · exact pct_bytes _ (utf8EncodeNat_lt256 (char_toNat_lt c)) rest

theorem qtb_encode (s : List Char) :
    queryTokensToBytes (encodeQueryComponent s) =
      s.flatMap (fun c => utf8EncodeNat c.toNat) := by
  induction s with
  | nil => rfl
  | cons c t ih =>
    simp only [encodeQueryComponent, List.flatMap_cons] at ih ⊢
    rw [tok_enc, ih]

theorem utf8_decode_flatMap (s : List Char) :
    utf8DecodeNat (s.flatMap (fun c => utf8EncodeNat c.toNat)) = s := by
  induction s with
  | nil => rfl
  | cons c t ih =>
    simp only [List.flatMap_cons]
    rw [utf8_round, ih]

theorem comp_round (s : List Char) :
    decodeQueryComponent (encodeQueryComponent s) = s := by
  rw [decodeQueryComponent, qtb_encode, utf8_decode_flatMap]

/-- Characters that may appear in an encoded query component: none of
the structural separators, and no whitespace. -/
def querySafeChar (c : Char) : Bool :=
  c ≠ '&' && c ≠ '=' && c ≠ '?' && c ≠ '#' && !jsWhitespace c

theorem unreserved_safe (c : Char) (h : urlencodedUnreserved c = true) :
    querySafeChar c = true := by
  simp only [querySafeChar, Bool.and_eq_true, bne_iff_ne, ne_eq, Bool.not_eq_true',
    decide_eq_true_eq]
  refine ⟨⟨⟨⟨?_, ?_⟩, ?_⟩, ?_⟩, ?_⟩
  · intro he; subst he; exact absurd h (by decide)
  · intro he; subst he; exact absurd h (by decide)
  · intro he; subst he; exact absurd h (by decide)
  · intro he; subst he; exact absurd h (by decide)
  · by_contra hws
    rw [Bool.not_eq_false] at hws
    have hmem : c ∈ jsWhitespaceChars := by
      rw [jsWhitespace] at hws
      exact List.mem_of_elem_eq_true hws
    fin_cases hmem <;> exact absurd h (by decide)

theorem hexChar_safe (n : Nat) (h : n < 16) :
    querySafeChar (hexDigitChar n) = true := by
  interval_cases n <;> decide

theorem mem_encodeQueryChar_safe {c c' : Char} (h : c' ∈ encodeQueryChar c) :
    querySafeChar c' = true := by
  unfold encodeQueryChar at h
  split_ifs at h with hsp hunres
  · simp only [List.mem_singleton] at h
    subst h; decide
  · simp only [List.mem_singleton] at h
    subst h; exact unreserved_safe _ hunres
  · rw [List.mem_flatMap] at h
    obtain ⟨b, hb, hmem⟩ := h
    have hlt : b < 256 := utf8EncodeNat_lt256 (char_toNat_lt c) b hb
    rcases List.mem_cons.mp hmem with h1 | h1
    · subst h1; decide
    · simp only [toHexPair, List.mem_cons, List.mem_singleton, List.not_mem_nil,
        or_false] at h1
      rcases h1 with h1 | h1 <;> subst h1 <;> exact hexChar_safe _ (by omega)

theorem mem_encodeQueryComponent_safe {s : List Char} {c' : Char}
    (h : c' ∈ encodeQueryComponent s) : querySafeChar c' = true := by
  rw [encodeQueryComponent, List.mem_flatMap] at h
  obtain ⟨c, _, hmem⟩ := h
  exact mem_encodeQueryChar_safe hmem

theorem mem_serializeQuery {ps : List (String × String)} {c' : Char}
    (h : c' ∈ serializeQuery ps) :
    c' = '&' ∨ c' = '=' ∨ querySafeChar c' = true := by
  induction ps with
  | nil => simp [serializeQuery] at h
  | cons p t ih =>
    cases t with
    | nil =>
      rw [serializeQuery] at h
      simp only [List.mem_append, List.mem_cons] at h
      rcases h with h | h | h
      · exact Or.inr (Or.inr (mem_encodeQueryComponent_safe h))
      · exact Or.inr (Or.inl h)
      · exact Or.inr (Or.inr (mem_encodeQueryComponent_safe h))
    | cons q r =>
      rw [serializeQuery] at h
      simp only [List.mem_append, List.mem_cons] at h
      rcases h with (h | h | h) | h | h
      · exact Or.inr (Or.inr (mem_encodeQueryComponent_safe h))
      · exact Or.inr (Or.inl h)
      · exact Or.inr (Or.inr (mem_encodeQueryComponent_safe h))
      · exact Or.inl h
      · exact ih h

theorem serializeQuery_no_qmark (ps : List (String × String)) :
    '?' ∉ serializeQuery ps := by
  intro h
  rcases mem_serializeQuery h with h1 | h1 | h1 <;> exact absurd h1 (by decide)

theorem serializeQuery_no_hash (ps : List (String × String)) :
    '#' ∉ serializeQuery ps := by
  intro h
  rcases mem_serializeQuery h with h1 | h1 | h1 <;> exact absurd h1 (by decide)

theorem serializeQuery_no_ws {ps : List (String × String)} {c' : Char}
    (h : c' ∈ serializeQuery ps) : jsWhitespace c' = false := by
  rcases mem_serializeQuery h with h1 | h1 | h1
  · subst h1; decide
  · subst h1; decide
  · simp only [querySafeChar, Bool.and_eq_true, Bool.not_eq_true'] at h1
    exact h1.2

theorem splitFirst_not_mem {sep : Char} {l : List Char} (h : sep ∉ l) :
    splitFirst sep l = (l, none) := by
  induction l with
  | nil => rfl
  | cons c t ih =>
    rw [splitFirst]
    rw [if_neg (fun he => h (by simp [he]))]
    have ht := ih (fun hm => h (by simp [hm]))
    simp [ht]

theorem splitFirst_append (sep : Char) (A B : List Char) (h : sep ∉ A) :
    splitFirst sep (A ++ sep :: B) = (A, some B) := by
  induction A with
  | nil =>
    simp only [List.nil_append]
    rw [splitFirst, if_pos rfl]
  | cons a t ih =>
    simp only [List.cons_append]
    rw [splitFirst]
    rw [if_neg (fun he => h (by simp [he]))]
    have ht := ih (fun hm => h (by simp [hm]))
    simp [ht]

theorem splitFirst_fst_not_mem (sep : Char) (l : List Char) :
    sep ∉ (splitFirst sep l).1 := by
  induction l with
  | nil => simp [splitFirst]
  | cons c t ih =>
    rw [splitFirst]
    by_cases hc : c = sep
    · rw [if_pos hc]; simp
    · rw [if_neg hc]
      simp only [List.mem_cons, not_or]
      exact ⟨fun he => hc he.symm, ih⟩

theorem splitFirst_reconstruct (sep : Char) (l : List Char) :
    l = (splitFirst sep l).1 ++
      (match (splitFirst sep l).2 with
       | some r => sep :: r
       | none => []) := by
  induction l with
  | nil => rfl
  | cons c t ih =>
    rw [splitFirst]
    by_cases hc : c = sep
    · rw [if_pos hc]
      simp [hc]
    · rw [if_neg hc]
      dsimp only
      rw [List.cons_append]
      exact congrArg (c :: ·) ih

theorem splitOnAmp_not_mem {A : List Char} (h : '&' ∉ A) :
    splitOnAmp A = [A] := by
  induction A with
  | nil => rfl
  | cons a t ih =>
    rw [splitOnAmp]
    rw [if_neg (fun he => h (by simp [he]))]
    rw [ih (fun hm => h (by simp [hm]))]

theorem splitOnAmp_append (A B : List Char) (h : '&' ∉ A) :
    splitOnAmp (A ++ '&' :: B) = A :: splitOnAmp B := by
  induction A with
  | nil =>
    simp only [List.nil_append]
    rw [splitOnAmp, if_pos rfl]
  | cons a t ih =>
    simp only [List.cons_append]
    rw [splitOnAmp]
    rw [if_neg (fun he => h (by simp [he]))]
    rw [ih (fun hm => h (by simp [hm]))]

theorem not_mem_encodeQueryComponent_eq (s : List Char) :
    '=' ∉ encodeQueryComponent s := by
  intro h
  exact absurd (mem_encodeQueryComponent_safe h) (by decide)

theorem not_mem_encodeQueryComponent_amp (s : List Char) :
    '&' ∉ encodeQueryComponent s := by
  intro h
  exact absurd (mem_encodeQueryComponent_safe h) (by decide)

theorem seg_no_amp (p : String × String) :
    '&' ∉ encodeQueryComponent p.1.toList ++ '=' :: encodeQueryComponent p.2.toList := by
  intro h
  rcases List.mem_append.mp h with h1 | h1
  · exact not_mem_encodeQueryComponent_amp _ h1
  · rcases List.mem_cons.mp h1 with h2 | h2
    · exact absurd h2 (by decide)
    · exact not_mem_encodeQueryComponent_amp _ h2

theorem seg_isEmpty_false (p : String × String) :
    (encodeQueryComponent p.1.toList ++ '=' :: encodeQueryComponent p.2.toList).isEmpty
      = false := by
  cases h : encodeQueryComponent p.1.toList with
  | nil => rfl
  | cons a t => rfl

theorem pair_round (p : String × String) :
    parseQueryPair (encodeQueryComponent p.1.toList ++ '=' ::
      encodeQueryComponent p.2.toList) = p := by
  unfold parseQueryPair
  rw [splitFirst_append '=' _ _ (not_mem_encodeQueryComponent_eq _)]
  dsimp only
  rw [comp_round, comp_round]
  rfl

theorem parse_serialize (ps : List (String × String)) :
    parseQueryString (serializeQuery ps) = ps := by
  induction ps with
  | nil => rfl
  | cons p t ih =>
    cases t with
    | nil =>
      rw [serializeQuery]
      unfold parseQueryString
      rw [splitOnAmp_not_mem (seg_no_amp p)]
      rw [List.filter_cons, if_pos (by rw [seg_isEmpty_false p]; rfl)]
      rw [List.filter_nil, List.map_cons, List.map_nil, pair_round]
    | cons q r =>
      rw [serializeQuery]
      unfold parseQueryString
      rw [splitOnAmp_append _ _ (seg_no_amp p)]
      rw [List.filter_cons, if_pos (by rw [seg_isEmpty_false p]; rfl)]
      rw [List.map_cons, pair_round]
      exact congrArg (p :: ·) ih

theorem getParamValue_cons (a : String × String) (t : List (String × String))
    (k : String) :
    getParamValue (a :: t) k = if a.1 = k then some a.2 else getParamValue t k := by
  unfold getParamValue
  by_cases h : a.1 = k
  · rw [List.find?_cons_of_pos _ (by simp [h]), if_pos h]
    rfl
  · rw [List.find?_cons_of_neg _ (by simp [h]), if_neg h]

theorem getParamValue_filter_ne (t : List (String × String)) (k k' : String)
    (h : k' ≠ k) :
    getParamValue (t.filter (fun p => p.1 ≠ k)) k' = getParamValue t k' := by
  induction t with
  | nil => rfl
  | cons a s ih =>
    rw [List.filter_cons]
    by_cases hq : a.1 = k
    · rw [if_neg (by simp [hq])]
      rw [ih, getParamValue_cons, if_neg (fun he => h (he.symm.trans hq))]
    · rw [if_pos (by simp [hq])]
      rw [getParamValue_cons, getParamValue_cons]
      by_cases ha : a.1 = k'
      · rw [if_pos ha, if_pos ha]
      · rw [if_neg ha, if_neg ha, ih]

theorem getParam_set_self (ps : List (String × String)) (k v : String) :
    getParamValue (setParam ps k v) k = some v := by
  induction ps with
  | nil => rw [setParam, getParamValue_cons, if_pos rfl]
  | cons a t ih =>
    obtain ⟨ka, va⟩ := a
    rw [setParam]
    by_cases hk : ka = k
    · rw [if_pos hk, getParamValue_cons, if_pos rfl]
    · rw [if_neg hk, getParamValue_cons, if_neg hk]
      exact ih

theorem getParam_set_other (ps : List (String × String)) (k v k' : String)
    (h : k' ≠ k) :
    getParamValue (setParam ps k v) k' = getParamValue ps k' := by
  induction ps with
  | nil =>
    rw [setParam, getParamValue_cons, if_neg (fun he => h he.symm)]
  | cons a t ih =>
    obtain ⟨ka, va⟩ := a
    rw [setParam]
    by_cases hk : ka = k
    · rw [if_pos hk, getParamValue_cons, if_neg (fun he => h he.symm),
        getParamValue_cons]
      subst hk
      rw [if_neg (fun he => h he.symm)]
      exact getParamValue_filter_ne t ka k' h
    · rw [if_neg hk, getParamValue_cons, getParamValue_cons]
      by_cases ha : ka = k'
      · rw [if_pos ha, if_pos ha]
      · rw [if_neg ha, if_neg ha]
        exact ih

theorem setParam_ne_nil (ps : List (String × String)) (k v : String) :
    setParam ps k v ≠ [] := by
  cases ps with
  | nil => simp [setParam]
  | cons a t =>
    obtain ⟨ka, va⟩ := a
    rw [setParam]
    split_ifs <;> simp

theorem dropWhile_eq_self_of_head {p : Char → Bool} {l : List Char}
    (h : ∀ c, l.head? = some c → p c = false) : l.dropWhile p = l := by
  cases l with
  | nil => rfl
  | cons a t =>
    rw [List.dropWhile_cons, if_neg (by simp [h a rfl])]

theorem jsTrim_eq_self {l : List Char}
    (h1 : ∀ c, l.head? = some c → jsWhitespace c = false)
    (h2 : ∀ c, l.getLast? = some c → jsWhitespace c = false) :
    jsTrim l = l := by
  unfold jsTrim
  rw [dropWhile_eq_self_of_head h1]
  rw [dropWhile_eq_self_of_head (fun c hc => h2 c (by rwa [List.head?_reverse] at hc))]
  exact List.reverse_reverse l

theorem length_dropWhile_le (p : Char → Bool) (l : List Char) :
    (l.dropWhile p).length ≤ l.length := by
  induction l with
  | nil => simp
  | cons a t ih =>
    rw [List.dropWhile_cons]
    by_cases hp : p a = true
    · rw [if_pos hp]
      exact Nat.le_succ_of_le ih
    · rw [if_neg hp]

theorem getLast?_append_right {l1 l2 : List Char} {a : Char}
    (h : l2.getLast? = some a) : (l1 ++ l2).getLast? = some a := by
  rw [List.getLast?_append, h]
  rfl

theorem jsTrim_head_not_ws {l : List Char} (h : jsTrim l = l) {c : Char}
    (hc : l.head? = some c) : jsWhitespace c = false := by
  by_contra hw
  rw [Bool.not_eq_false] at hw
  cases l with
  | nil => exact absurd hc (by simp)
  | cons a t =>
    have ha : a = c := by simpa using hc
    subst ha
    have h1 : (jsTrim (a :: t)).length ≤ t.length := by
      unfold jsTrim
      rw [List.length_reverse]
      calc (((a :: t).dropWhile jsWhitespace).reverse.dropWhile jsWhitespace).length
          ≤ ((a :: t).dropWhile jsWhitespace).reverse.length :=
            length_dropWhile_le _ _
        _ = ((a :: t).dropWhile jsWhitespace).length := List.length_reverse _
        _ = (t.dropWhile jsWhitespace).length := by
            rw [List.dropWhile_cons, if_pos hw]
        _ ≤ t.length := length_dropWhile_le _ _
    rw [h] at h1
    simp at h1

theorem jsTrim_getLast_not_ws {l : List Char} (h : jsTrim l = l) {c : Char}
    (hc : l.getLast? = some c) : jsWhitespace c = false := by
  by_contra hw
  rw [Bool.not_eq_false] at hw
  have hlnil : l ≠ [] := by
    intro he
    rw [he] at hc
    exact absurd hc (by simp)
  cases hm : l.dropWhile jsWhitespace with
  | nil =>
    have : jsTrim l = [] := by
      unfold jsTrim
      rw [hm]
      rfl
    rw [h] at this
    exact hlnil this
  | cons b t =>
    have hsuf : l.dropWhile jsWhitespace <:+ l := List.dropWhile_suffix _
    obtain ⟨pre, hpre⟩ := hsuf
    have hlast : (l.dropWhile jsWhitespace).getLast? = some c := by
      rw [hm]
      rw [← hpre, hm] at hc
      rw [List.getLast?_append] at hc
      cases hbt : (b :: t).getLast? with
      | none => exact absurd (List.getLast?_eq_none_iff.mp hbt) (by simp)
      | some x =>
        rw [hbt] at hc
        exact hc
    have hrev : (l.dropWhile jsWhitespace).reverse.head? = some c := by
      rw [List.head?_reverse]
      exact hlast
    obtain ⟨t2, ht2⟩ : ∃ t2, (l.dropWhile jsWhitespace).reverse = c :: t2 := by
      cases hr : (l.dropWhile jsWhitespace).reverse with
      | nil => rw [hr] at hrev; exact absurd hrev (by simp)
      | cons x y =>
        rw [hr] at hrev
        refine ⟨y, ?_⟩
        have : x = c := by simpa using hrev
        rw [this]
    have hlen1 : (jsTrim l).length ≤ t2.length := by
      unfold jsTrim
      rw [List.length_reverse, ht2, List.dropWhile_cons, if_pos hw]
      exact length_dropWhile_le _ _
    have hlen2 : t2.length + 1 = (l.dropWhile jsWhitespace).length := by
      have h5 := congrArg List.length ht2
      rw [List.length_reverse] at h5
      simp at h5
      omega
    have hlen3 : (l.dropWhile jsWhitespace).length ≤ l.length :=
      length_dropWhile_le _ _
    have hlen4 : (jsTrim l).length = l.length := congrArg List.length h
    omega

theorem validBase_cons {b : List Char} (h : validBase b = true) :
    ∃ t, b = 'h' :: t := by
  unfold validBase at h
  rw [Bool.or_eq_true] at h
  rcases h with h | h <;> rw [Bool.and_eq_true] at h <;> obtain ⟨h1, -⟩ := h <;>
    rw [decide_eq_true_eq] at h1 <;>
    obtain ⟨t, ht⟩ := List.isPrefixOf_iff_prefix.mp h1 <;>
    exact ⟨_, ht.symm⟩

theorem withHttpsScheme_append_of_valid (B X : List Char) (h : validBase B = true) :
    withHttpsScheme (B ++ X) = B ++ X := by
  unfold withHttpsScheme
  refine if_pos ?_
  unfold validBase at h
  rw [Bool.or_eq_true] at h
  rw [Bool.or_eq_true]
  rcases h with h | h <;> rw [Bool.and_eq_true] at h <;> obtain ⟨h1, -⟩ := h <;>
    rw [decide_eq_true_eq] at h1 <;>
    obtain ⟨t, ht⟩ := List.isPrefixOf_iff_prefix.mp h1
  · exact Or.inl (List.isPrefixOf_iff_prefix.mpr ⟨t ++ X, by rw [← List.append_assoc, ht]⟩)
  · exact Or.inr (List.isPrefixOf_iff_prefix.mpr ⟨t ++ X, by rw [← List.append_assoc, ht]⟩)

theorem serializeQuery_ne_nil {ps : List (String × String)} (h : ps ≠ []) :
    serializeQuery ps ≠ [] := by
  cases ps with
  | nil => exact absurd rfl h
  | cons p t =>
    cases t with
    | nil =>
      rw [serializeQuery]
      intro he
      have h2 := seg_isEmpty_false p
      rw [he] at h2
      simp at h2
    | cons q r =>
      rw [serializeQuery]
      intro he
      rcases List.append_eq_nil.mp he with ⟨-, h2⟩
      exact absurd h2 (by simp)

theorem urlParse_eq {l : List Char} {u : UrlModel} (h : urlParse l = some u) :
    u.base = (splitFirst '?' (splitFirst '#' l).1).1 ∧
      u.query = parseQueryString (((splitFirst '?' (splitFirst '#' l).1).2).getD []) ∧
      u.fragment = (splitFirst '#' l).2 ∧ validBase u.base = true := by
  unfold urlParse at h
  dsimp only at h
  split_ifs at h with hv
  · injection h with h1
    rw [← h1]
    exact ⟨rfl, rfl, rfl, hv⟩

theorem no_hash_prequery {B : List Char} {q : List (String × String)}
    (hBh : '#' ∉ B) : '#' ∉ B ++ '?' :: serializeQuery q := by
  intro hm
  rcases List.mem_append.mp hm with h | h
  · exact hBh h
  · rcases List.mem_cons.mp h with h | h
    · exact absurd h (by decide)
    · exact serializeQuery_no_hash q h

theorem parseUrl_serializeUrl (B : List Char) (q : List (String × String))
    (F : Option (List Char))
    (hvb : validBase B = true)
    (hBq : '?' ∉ B) (hBh : '#' ∉ B)
    (hq : q ≠ [])
    (hF : ∀ f, F = some f → f.count '?' = 0 ∧
      (∀ c, f.getLast? = some c → jsWhitespace c = false)) :
    parseUrl (String.mk (serializeUrl ⟨B, q, F⟩)) =
      Except.ok
        ({ utm_source := getParamValue q "utm_source"
           utm_medium := getParamValue q "utm_medium"
           utm_campaign := getParamValue q "utm_campaign"
           utm_content := getParamValue q "utm_content"
           utm_term := getParamValue q "utm_term" },
         String.mk (serializeUrl ⟨B, q, F⟩)) := by
  obtain ⟨Bt, hB⟩ := validBase_cons hvb
  have hqe : q.isEmpty = false := by
    cases q with
    | nil => exact absurd rfl hq
    | cons a t => rfl
  have hsqnil := serializeQuery_ne_nil hq
  cases F with
  | some f =>
    have hL : serializeUrl ⟨B, q, some f⟩ =
        (B ++ '?' :: serializeQuery q) ++ '#' :: f := by
      unfold serializeUrl
      dsimp only
      rw [hqe]
      simp [List.append_assoc]
    rw [hL]
    have hhead : ∀ c, ((B ++ '?' :: serializeQuery q) ++ '#' :: f).head? = some c →
        jsWhitespace c = false := by
      intro c hc
      rw [hB] at hc
      simp only [List.cons_append, List.head?_cons] at hc
      injection hc with hc
      subst hc
      decide
    have hlast : ∀ c, ((B ++ '?' :: serializeQuery q) ++ '#' :: f).getLast? = some c →
        jsWhitespace c = false := by
      intro c hc
      cases hf2 : f with
      | nil =>
        subst hf2
        rw [@getLast?_append_right (B ++ '?' :: serializeQuery q) ['#'] '#'
          (show (['#'] : List Char).getLast? = some '#' from rfl)] at hc
        injection hc with hc
        subst hc
        decide
      | cons b bt =>
        subst hf2
        cases hd : (b :: bt).getLast? with
        | none => exact absurd (List.getLast?_eq_none_iff.mp hd) (by simp)
        | some d =>
          have hA : ((B ++ '?' :: serializeQuery q) ++ '#' :: b :: bt).getLast? =
              some d := by
            rw [@getLast?_append_right (B ++ '?' :: serializeQuery q)
              ('#' :: b :: bt) d
              (show ('#' :: b :: bt).getLast? = some d from
                (List.getLast?_cons_cons).trans hd)]
          rw [hA] at hc
          injection hc with hc
          subst hc
          exact (hF _ rfl).2 d hd
    have htr : jsTrim ((B ++ '?' :: serializeQuery q) ++ '#' :: f) =
        (B ++ '?' :: serializeQuery q) ++ '#' :: f := jsTrim_eq_self hhead hlast
    have hem : ((B ++ '?' :: serializeQuery q) ++ '#' :: f).isEmpty = false := by
      rw [hB]
      rfl
    have hcnt : ((B ++ '?' :: serializeQuery q) ++ '#' :: f).count '?' = 1 := by
      rw [List.count_append, List.count_append]
      rw [List.count_eq_zero.mpr hBq]
      rw [show ('?' :: serializeQuery q) = ['?'] ++ serializeQuery q from rfl,
        List.count_append, List.count_eq_zero.mpr (serializeQuery_no_qmark q)]
      rw [show ('#' :: f) = ['#'] ++ f from rfl, List.count_append, (hF f rfl).1]
      rfl
    have hW : withHttpsScheme ((B ++ '?' :: serializeQuery q) ++ '#' :: f) =
        (B ++ '?' :: serializeQuery q) ++ '#' :: f := by
      rw [List.append_assoc]
      exact withHttpsScheme_append_of_valid B _ hvb
    have hup : urlParse ((B ++ '?' :: serializeQuery q) ++ '#' :: f) =
        some ⟨B, q, some f⟩ := by
      unfold urlParse
      rw [splitFirst_append '#' _ f (no_hash_prequery hBh)]
      dsimp only
      rw [splitFirst_append '?' B _ hBq]
      dsimp only
      rw [if_pos hvb]
      rw [Option.getD_some]
      rw [parse_serialize]
    unfold parseUrl
    dsimp only
    rw [show (String.mk ((B ++ '?' :: serializeQuery q) ++ '#' :: f)).toList =
      (B ++ '?' :: serializeQuery q) ++ '#' :: f from rfl]
    rw [htr]
    rw [if_neg (by rw [hem]; simp)]
    rw [if_neg (by rw [hcnt]; omega)]
    rw [hW, hup]
  | none =>
    have hL : serializeUrl ⟨B, q, none⟩ = B ++ '?' :: serializeQuery q := by
      unfold serializeUrl
      dsimp only
      rw [hqe]
      simp
    rw [hL]
    have hhead : ∀ c, (B ++ '?' :: serializeQuery q).head? = some c →
        jsWhitespace c = false := by
      intro c hc
      rw [hB] at hc
      simp only [List.cons_append, List.head?_cons] at hc
      injection hc with hc
      subst hc
      decide
    have hlast : ∀ c, (B ++ '?' :: serializeQuery q).getLast? = some c →
        jsWhitespace c = false := by
      intro c hc
      cases hd : (serializeQuery q).getLast? with
      | none => exact absurd (List.getLast?_eq_none_iff.mp hd) hsqnil
      | some d =>
        have hA : (B ++ '?' :: serializeQuery q).getLast? = some d := by
          cases hsq : serializeQuery q with
          | nil => exact absurd hsq hsqnil
          | cons e et =>
            rw [@getLast?_append_right B ('?' :: e :: et) d
              (show ('?' :: e :: et).getLast? = some d from
                (List.getLast?_cons_cons).trans (hsq ▸ hd))]
        rw [hA] at hc
        injection hc with hc
        subst hc
        exact serializeQuery_no_ws (List.mem_of_mem_getLast? hd)
    have htr : jsTrim (B ++ '?' :: serializeQuery q) =
        B ++ '?' :: serializeQuery q := jsTrim_eq_self hhead hlast
    have hem : (B ++ '?' :: serializeQuery q).isEmpty = false := by
      rw [hB]
      rfl
    have hcnt : (B ++ '?' :: serializeQuery q).count '?' = 1 := by
      rw [List.count_append]
      rw [List.count_eq_zero.mpr hBq]
      rw [show ('?' :: serializeQuery q) = ['?'] ++ serializeQuery q from rfl,
        List.count_append, List.count_eq_zero.mpr (serializeQuery_no_qmark q)]
      rfl
    have hW : withHttpsScheme (B ++ '?' :: serializeQuery q) =
        B ++ '?' :: serializeQuery q :=
      withHttpsScheme_append_of_valid B _ hvb
    have hup : urlParse (B ++ '?' :: serializeQuery q) = some ⟨B, q, none⟩ := by
      unfold urlParse
      rw [splitFirst_not_mem (no_hash_prequery hBh)]
      dsimp only
      rw [splitFirst_append '?' B _ hBq]
      dsimp only
      rw [if_pos hvb]
      rw [Option.getD_some]
      rw [parse_serialize]
    unfold parseUrl
    dsimp only
    rw [show (String.mk (B ++ '?' :: serializeQuery q)).toList =
      B ++ '?' :: serializeQuery q from rfl]
    rw [htr]
    rw [if_neg (by rw [hem]; simp)]
    rw [if_neg (by rw [hcnt]; omega)]
    rw [hW, hup]

/-- `key.startsWith('utm_')` on the list representation. -/
def startsWithUtm (k : String) : Bool :=
  List.isPrefixOf ['u', 't', 'm', '_'] k.toList

/-- One iteration of the tracking-key rebuild loop of `buildCleanUrl`
(`if (value) url.searchParams.set(key, value)`). -/
def addUtm (q : List (String × String)) (k : String) (v : Option String) :
    List (String × String) :=
  if jsTruthy v then setParam q k (v.getD "") else q

/-- The query rebuilt by `buildCleanUrl`: clear the query, re-set the
non-tracking pairs in order, then set the five tracking keys in canonical
order when their value is truthy. -/
def rebuiltQuery (q0 : List (String × String)) (params : ParsedUTMParams) :
    List (String × String) :=
  let q1 := (q0.filter (fun p => !startsWithUtm p.1)).foldl
    (fun q p => setParam q p.1 p.2) []
  addUtm (addUtm (addUtm (addUtm (addUtm q1 "utm_source" params.utm_source)
    "utm_medium" params.utm_medium) "utm_campaign" params.utm_campaign)
    "utm_content" params.utm_content) "utm_term" params.utm_term

/-- `buildCleanUrl` from `src/src/lib/validator.ts`: default the scheme,
parse as a URL, rebuild the query with the non-tracking pairs first and
the five tracking keys in canonical order; a parse failure returns the
input unchanged. -/
def buildCleanUrl (originalUrl : String) (params : ParsedUTMParams) : String :=
  match urlParse (withHttpsScheme originalUrl.toList) with
  | none => originalUrl
  | some url =>
    String.mk (serializeUrl
      { base := url.base, query := rebuiltQuery url.query params,
        fragment := url.fragment })

example : buildCleanUrl "site.com?x=1&utm_medium=x"
    { utm_source := some "a" } = "https://site.com?x=1&utm_source=a" := by decide

theorem addUtm_truthy (q : List (String × String)) (k v : String) (hv : v ≠ "") :
    addUtm q k (some v) = setParam q k v := by
  have hvi : v.isEmpty = false := by
    cases hvi : v.isEmpty with
    | false => rfl
    | true => exact absurd ((String.isEmpty_iff v).mp hvi) hv
  unfold addUtm jsTruthy
  rw [Option.getD_some, hvi]
  rfl

theorem isValidUtmValue_ne_empty {v : String} (h : isValidUtmValue v false = true) :
    v ≠ "" := by
  intro he
  rw [he] at h
  exact absurd h (by decide)

theorem rebuiltQuery_get (q0 : List (String × String)) (s m ca co te : String)
    (hs : s ≠ "") (hm : m ≠ "") (hca : ca ≠ "") (hco : co ≠ "") (hte : te ≠ "") :
    getParamValue (rebuiltQuery q0
      { utm_source := some s, utm_medium := some m, utm_campaign := some ca,
        utm_content := some co, utm_term := some te }) "utm_source" = some s ∧
    getParamValue (rebuiltQuery q0
      { utm_source := some s, utm_medium := some m, utm_campaign := some ca,
        utm_content := some co, utm_term := some te }) "utm_medium" = some m ∧
    getParamValue (rebuiltQuery q0
      { utm_source := some s, utm_medium := some m, utm_campaign := some ca,
        utm_content := some co, utm_term := some te }) "utm_campaign" = some ca ∧
    getParamValue (rebuiltQuery q0
      { utm_source := some s, utm_medium := some m, utm_campaign := some ca,
        utm_content := some co, utm_term := some te }) "utm_content" = some co ∧
    getParamValue (rebuiltQuery q0
      { utm_source := some s, utm_medium := some m, utm_campaign := some ca,
        utm_content := some co, utm_term := some te }) "utm_term" = some te ∧
    rebuiltQuery q0
      { utm_source := some s, utm_medium := some m, utm_campaign := some ca,
        utm_content := some co, utm_term := some te } ≠ [] := by
  unfold rebuiltQuery
  dsimp only
  rw [addUtm_truthy _ _ _ hs, addUtm_truthy _ _ _ hm, addUtm_truthy _ _ _ hca,
    addUtm_truthy _ _ _ hco, addUtm_truthy _ _ _ hte]
  refine ⟨?_, ?_, ?_, ?_, getParam_set_self _ _ _, setParam_ne_nil _ _ _⟩
  · rw [getParam_set_other _ _ _ _ (by decide), getParam_set_other _ _ _ _ (by decide),
      getParam_set_other _ _ _ _ (by decide), getParam_set_other _ _ _ _ (by decide)]
    exact getParam_set_self _ _ _
  · rw [getParam_set_other _ _ _ _ (by decide), getParam_set_other _ _ _ _ (by decide),
      getParam_set_other _ _ _ _ (by decide)]
    exact getParam_set_self _ _ _
  · rw [getParam_set_other _ _ _ _ (by decide), getParam_set_other _ _ _ _ (by decide)]
    exact getParam_set_self _ _ _
  · rw [getParam_set_other _ _ _ _ (by decide)]
    exact getParam_set_self _ _ _

theorem mem_splitFirst_fst {sep c : Char} {l : List Char}
    (h : c ∈ (splitFirst sep l).1) : c ∈ l := by
  rw [splitFirst_reconstruct sep l]
  exact List.mem_append_left _ h

theorem withHttpsScheme_getLast {l : List Char} (hl : l ≠ []) :
    (withHttpsScheme l).getLast? = l.getLast? := by
  unfold withHttpsScheme
  split_ifs with h
  · rfl
  · cases hd : l.getLast? with
    | none => exact absurd (List.getLast?_eq_none_iff.mp hd) hl
    | some d => rw [List.getLast?_append, hd]; rfl

/-- The C6 counterexample URL: a fragment containing a `?`. -/
def urlC6 : String := "site.com#a?b"

/-- The C6 counterexample parameter set: all five keys set to values
satisfying the global rules. -/
def pexC6 : ParsedUTMParams :=
  { utm_source := some "a", utm_medium := some "b", utm_campaign := some "c",
    utm_content := some "d", utm_term := some "e" }

/-- C6 (counterexample): `urlC6` parses successfully and every value of
`pexC6` satisfies the global rules, yet parsing the result of
`buildCleanUrl` does not return the same parameter set — it fails with
MalformedQuery, because the rebuilt URL gains a real query separator while
keeping the `?` inside the fragment, and `parseUrl` counts both. -/
theorem buildCleanUrl_not_roundtrip :
    parseUrl urlC6 = Except.ok ({}, urlC6) ∧
    (isValidUtmValue "a" false = true ∧ isValidUtmValue "b" false = true ∧
      isValidUtmValue "c" false = true ∧ isValidUtmValue "d" false = true ∧
      isValidUtmValue "e" false = true) ∧
    parseUrl (buildCleanUrl urlC6 pexC6) = Except.error ParseErr.malformedQuery := by
  decide

/-- C6 (amended): for a trimmed URL that parses successfully and whose
fragment (if any) contains no `?`, and a parameter set with all five keys
set to values satisfying the global rules, parsing the result of
`buildCleanUrl` succeeds and returns exactly that parameter set together
with the built URL. -/
theorem buildCleanUrl_roundtrip (url s m ca co te : String)
    (hvs : isValidUtmValue s false = true) (hvm : isValidUtmValue m false = true)
    (hvca : isValidUtmValue ca false = true) (hvco : isValidUtmValue co false = true)
    (hvte : isValidUtmValue te false = true)
    (htrim : jsTrim url.toList = url.toList)
    (hok : ∃ pr, parseUrl url = Except.ok pr)
    (hfr : ∀ f, (splitFirst '#' (withHttpsScheme url.toList)).2 = some f →
      f.count '?' = 0) :
    parseUrl (buildCleanUrl url
        { utm_source := some s, utm_medium := some m, utm_campaign := some ca,
          utm_content := some co, utm_term := some te }) =
      Except.ok
        ({ utm_source := some s, utm_medium := some m, utm_campaign := some ca,
           utm_content := some co, utm_term := some te },
         buildCleanUrl url
           { utm_source := some s, utm_medium := some m, utm_campaign := some ca,
             utm_content := some co, utm_term := some te }) := by
  obtain ⟨pr, hpe⟩ := hok
  unfold parseUrl at hpe
  dsimp only at hpe
  rw [htrim] at hpe
  by_cases hem : url.toList.isEmpty = true
  · rw [if_pos hem] at hpe
    exact absurd hpe (by simp)
  rw [if_neg hem] at hpe
  by_cases hc2 : 1 < url.toList.count '?'
  · rw [if_pos hc2] at hpe
    exact absurd hpe (by simp)
  rw [if_neg hc2] at hpe
  cases hu : urlParse (withHttpsScheme url.toList) with
  | none =>
    rw [hu] at hpe
    exact absurd hpe (by simp)
  | some u =>
  obtain ⟨hb, hq, hf, hvb⟩ := urlParse_eq hu
  have hs' := isValidUtmValue_ne_empty hvs
  have hm' := isValidUtmValue_ne_empty hvm
  have hca' := isValidUtmValue_ne_empty hvca
  have hco' := isValidUtmValue_ne_empty hvco
  have hte' := isValidUtmValue_ne_empty hvte
  obtain ⟨hg1, hg2, hg3, hg4, hg5, hg6⟩ :=
    rebuiltQuery_get u.query s m ca co te hs' hm' hca' hco' hte'
  have hBq : '?' ∉ u.base := by
    rw [hb]
    exact splitFirst_fst_not_mem '?' _
  have hBh : '#' ∉ u.base := by
    rw [hb]
    intro hmem
    exact splitFirst_fst_not_mem '#' (withHttpsScheme url.toList)
      (mem_splitFirst_fst hmem)
  have hFcond : ∀ f, u.fragment = some f → f.count '?' = 0 ∧
      (∀ c, f.getLast? = some c → jsWhitespace c = false) := by
    intro f hfeq
    have hsnd : (splitFirst '#' (withHttpsScheme url.toList)).2 = some f := by
      rw [← hf]
      exact hfeq
    refine ⟨hfr f hsnd, ?_⟩
    intro c hlastf
    have hlnil : url.toList ≠ [] := by
      intro he
      rw [he] at hem
      exact hem rfl
    have hrecon := splitFirst_reconstruct '#' (withHttpsScheme url.toList)
    rw [hsnd] at hrecon
    have hWlast : (withHttpsScheme url.toList).getLast? = some c := by
      rw [hrecon]
      cases f with
      | nil => exact absurd hlastf (by simp)
      | cons b bt =>
        exact getLast?_append_right ((List.getLast?_cons_cons).trans hlastf)
    rw [withHttpsScheme_getLast hlnil] at hWlast
    exact jsTrim_getLast_not_ws htrim hWlast
  have hbuild : buildCleanUrl url
      { utm_source := some s, utm_medium := some m, utm_campaign := some ca,
        utm_content := some co, utm_term := some te } =
      String.mk (serializeUrl
        { base := u.base,
          query := rebuiltQuery u.query
            { utm_source := some s, utm_medium := some m, utm_campaign := some ca,
              utm_content := some co, utm_term := some te },
          fragment := u.fragment }) := by
    unfold buildCleanUrl
    rw [hu]
  rw [hbuild]
  rw [parseUrl_serializeUrl u.base _ u.fragment hvb hBq hBh hg6 hFcond]
  rw [hg1, hg2, hg3, hg4, hg5]

/-- Witness for the amended C6 theorem at a concrete input. -/
theorem buildCleanUrl_roundtrip_witness :
    parseUrl (buildCleanUrl "x.com?a=1"
        { utm_source := some "a", utm_medium := some "b", utm_campaign := some "c",
          utm_content := some "d", utm_term := some "e" }) =
      Except.ok
        ({ utm_source := some "a", utm_medium := some "b", utm_campaign := some "c",
           utm_content := some "d", utm_term := some "e" },
         buildCleanUrl "x.com?a=1"
           { utm_source := some "a", utm_medium := some "b", utm_campaign := some "c",
             utm_content := some "d", utm_term := some "e" }) :=
  buildCleanUrl_roundtrip "x.com?a=1" "a" "b" "c" "d" "e" (by decide) (by decide)
    (by decide) (by decide) (by decide) (by decide)
    ⟨({}, "x.com?a=1"), by decide⟩ (fun f hf => Option.noConfusion hf)

/-- Word characters of the regexp class `\w`. -/
def isWordChar (c : Char) : Bool :=
  ('a' ≤ c && c ≤ 'z') || ('A' ≤ c && c ≤ 'Z') || ('0' ≤ c && c ≤ '9') || c = '_'

/-- Line terminators, the characters not matched by the regexp `.`. -/
def isLineTerm (c : Char) : Bool :=
  c = '\n' || c = '\r' || c = '\u2028' || c = '\u2029'

/-- The part of the suggestion before the first " or " separator
(`suggestion.split(' or ')[0]`), with the same fixed-lookahead scheme as
the other token scanners. -/
def takeUntilOr : List Char → List Char
  | c1 :: c2 :: c3 :: c4 :: rest =>
    if [c1, c2, c3, c4] = [' ', 'o', 'r', ' '] then []
    else c1 :: takeUntilOr (c2 :: c3 :: c4 :: rest)
  | c :: rest => c :: takeUntilOr rest
  | [] => []

/-- The regexp match `^(utm_\w+)=(.+)$` of `applyFix`: the string must be
`utm_` followed by at least one word character, then `=`, then a
non-empty value free of line terminators; the two groups are returned. -/
def parseSuggestion (s : List Char) : Option (String × String) :=
  if List.isPrefixOf ['u', 't', 'm', '_'] s then
    match splitFirst '=' (s.drop 4) with
    | (w, some v) =>
      if !w.isEmpty && w.all isWordChar && !v.isEmpty &&
          v.all (fun c => !isLineTerm c) then
        some (String.mk (['u', 't', 'm', '_'] ++ w), String.mk v)
      else none
    | (_, none) => none
  else none

example : parseSuggestion ("utm_source=google").toList = some ("utm_source", "google") := by
  decide
example : parseSuggestion ("utm_source=").toList = none := by decide
example : parseSuggestion ("utm_=x").toList = none := by decide
example : parseSuggestion ("Add utm_source to your URL").toList = none := by decide

/-- The scheme test of `applyFix` (`url.startsWith('http')` — four
characters only, unlike the other call sites). -/
def withHttpScheme4 (l : List Char) : List Char :=
  if List.isPrefixOf ['h', 't', 't', 'p'] l then l
  else ['h', 't', 't', 'p', 's', ':', '/', '/'] ++ l

/-- The value a JavaScript `Map` built by repeated `set` holds for `k`:
the value of the last pair with that key. -/
def lastValue (ps : List (String × String)) (k : String) : Option String :=
  (ps.reverse.find? (fun p => p.1 = k)).map (fun p => p.2)

/-- `if (value !== undefined) url.searchParams.set(param, value)`. -/
def setIfPresent (q : List (String × String)) (k : String) (v : Option String) :
    List (String × String) :=
  match v with
  | some s => setParam q k s
  | none => q

/-- The canonical tracking-key order `utmOrder`. -/
def canonicalKeys : List String :=
  ["utm_source", "utm_medium", "utm_campaign", "utm_content", "utm_term"]

/-- `reorderUtmParams` from `src/unnamed/part_001`: split the query into
tracking pairs (collected into a map, last value winning) and the other
pairs; clear the query, re-set the other pairs in order, then set the
five canonical tracking keys that the map holds. -/
def reorderUtmParams (u : UrlModel) : String :=
  let utmPairs := u.query.filter (fun p => startsWithUtm p.1)
  let others := u.query.filter (fun p => !startsWithUtm p.1)
  let q1 := others.foldl (fun q p => setParam q p.1 p.2) []
  let q2 := canonicalKeys.foldl (fun acc k => setIfPresent acc k (lastValue utmPairs k)) q1
  String.mk (serializeUrl { base := u.base, query := q2, fragment := u.fragment })

/-- `applyFix` from `src/unnamed/part_001`: take the first
" or "-alternative of the suggestion, trim it, match `utm_key=value`,
parse the URL (defaulting the scheme when it does not start with `http`),
set the key and return the reordered URL; any failure returns the input
URL unchanged. -/
def applyFix (url suggestion : String) : String :=
  match parseSuggestion (jsTrim (takeUntilOr suggestion.toList)) with
  | none => url
  | some (param, value) =>
    match urlParse (withHttpScheme4 url.toList) with
    | none => url
    | some u =>
      reorderUtmParams
        { base := u.base, query := setParam u.query param value,
          fragment := u.fragment }

/-- `applyAllFixes` from `src/unnamed/part_001`: fold `applyFix` over the
suggestions of the blocking findings (a finding with no suggestion, or an
empty one, is skipped); advisory findings are never applied. -/
def applyAllFixes (url : String) (messages : List ValidationMessage) : String :=
  ((messages.filter (fun ms => ms.kind = MsgKind.error && jsTruthy ms.suggestion)).map
    (fun ms => ms.suggestion.getD "")).foldl applyFix url

example : applyFix "site.com?b=2&utm_medium=x&a=1" "utm_source=google" =
    "https://site.com?b=2&a=1&utm_source=google&utm_medium=x" := by decide
example : applyFix "site.com" "not a suggestion" = "site.com" := by decide
example : applyFix "site.com?utm_source=a or utm_source=b" "utm_source=x or utm_source=y" =
    "https://site.com?utm_source=x" := by decide

/-- The query shape the spec describes for a reordered URL: the
non-tracking pairs first, in their original relative order, then the
canonical tracking keys in canonical order with the last value each key
held. -/
def reorderedQuery (q : List (String × String)) : List (String × String) :=
  q.filter (fun p => !startsWithUtm p.1) ++
    canonicalKeys.filterMap (fun k =>
      (lastValue (q.filter (fun p => startsWithUtm p.1)) k).map (fun v => (k, v)))

theorem setParam_fresh {q : List (String × String)} {k : String} (v : String)
    (h : ∀ p ∈ q, p.1 ≠ k) : setParam q k v = q ++ [(k, v)] := by
  induction q with
  | nil => rfl
  | cons a t ih =>
    obtain ⟨ka, va⟩ := a
    rw [setParam]
    rw [if_neg (h (ka, va) (by simp))]
    rw [ih (fun p hp => h p (by simp [hp]))]
    rfl

theorem keys_setParam {q : List (String × String)} {k v : String} {k2 : String}
    (h : k2 ∈ (setParam q k v).map Prod.fst) :
    k2 = k ∨ k2 ∈ q.map Prod.fst := by
  induction q with
  | nil =>
    simp [setParam] at h
    exact Or.inl h
  | cons a t ih =>
    obtain ⟨ka, va⟩ := a
    rw [setParam] at h
    by_cases hk : ka = k
    · rw [if_pos hk] at h
      rw [List.map_cons, List.mem_cons] at h
      rcases h with h | h
      · exact Or.inl h
      · rw [List.mem_map] at h
        obtain ⟨p, hp, hpe⟩ := h
        exact Or.inr (by
          rw [List.map_cons, List.mem_cons]
          exact Or.inr (List.mem_map.mpr ⟨p, List.mem_of_mem_filter hp, hpe⟩))
    · rw [if_neg hk] at h
      rw [List.map_cons, List.mem_cons] at h
      rcases h with h | h
      · exact Or.inr (by simp [h])
      · rcases ih h with h2 | h2
        · exact Or.inl h2
        · exact Or.inr (by simp [h2])

theorem setParam_nodup {q : List (String × String)} {k v : String}
    (hnd : (q.map Prod.fst).Nodup) :
    ((setParam q k v).map Prod.fst).Nodup := by
  induction q with
  | nil => simp [setParam]
  | cons a t ih =>
    obtain ⟨ka, va⟩ := a
    rw [List.map_cons, List.nodup_cons] at hnd
    rw [setParam]
    by_cases hk : ka = k
    · rw [if_pos hk, List.map_cons, List.nodup_cons]
      constructor
      · intro hmem
        rw [List.mem_map] at hmem
        obtain ⟨p, hp, hpe⟩ := hmem
        have := List.of_mem_filter hp
        rw [hpe] at this
        simp at this
      · exact ((List.filter_sublist t).map Prod.fst).nodup hnd.2
    · rw [if_neg hk, List.map_cons, List.nodup_cons]
      refine ⟨?_, ih hnd.2⟩
      intro hmem
      rcases keys_setParam hmem with h2 | h2
      · exact hk h2
      · exact hnd.1 h2

theorem foldl_setParam_append (xs : List (String × String)) :
    ∀ acc : List (String × String), (xs.map Prod.fst).Nodup →
      (∀ p ∈ xs, ∀ p2 ∈ acc, p2.1 ≠ p.1) →
      xs.foldl (fun q p => setParam q p.1 p.2) acc = acc ++ xs := by
  induction xs with
  | nil =>
    intro acc _ _
    simp
  | cons x t ih =>
    intro acc hnd hdisj
    rw [List.foldl_cons]
    rw [setParam_fresh x.2 (fun p2 hp2 => hdisj x (by simp) p2 hp2)]
    rw [List.map_cons, List.nodup_cons] at hnd
    rw [ih (acc ++ [x]) hnd.2 ?_]
    · simp
    · intro p hp p2 hp2
      rcases List.mem_append.mp hp2 with h2 | h2
      · exact hdisj p (by simp [hp]) p2 h2
      · rw [List.mem_singleton] at h2
        rw [h2]
        intro he
        exact hnd.1 (he ▸ List.mem_map.mpr ⟨p, hp, rfl⟩)

theorem foldl_setIfPresent_filterMap (ks : List String) (g : String → Option String) :
    ∀ q : List (String × String), ks.Nodup →
      (∀ p ∈ q, ∀ k ∈ ks, p.1 ≠ k) →
      ks.foldl (fun acc k => setIfPresent acc k (g k)) q =
        q ++ ks.filterMap (fun k => (g k).map (fun v => (k, v))) := by
  induction ks with
  | nil =>
    intro q _ _
    simp
  | cons k kt ih =>
    intro q hnd hfresh
    rw [List.nodup_cons] at hnd
    rw [List.foldl_cons, List.filterMap_cons]
    cases hg : g k with
    | none =>
      rw [show setIfPresent q k none = q from rfl]
      exact ih q hnd.2 (fun p hp k2 hk2 => hfresh p hp k2 (by simp [hk2]))
    | some s =>
      rw [show setIfPresent q k (some s) = setParam q k s from rfl]
      rw [setParam_fresh s (fun p hp => hfresh p hp k (by simp))]
      rw [Option.map_some']
      dsimp only
      rw [ih (q ++ [(k, s)]) hnd.2 ?_]
      · simp
      · intro p hp k2 hk2
        rcases List.mem_append.mp hp with h2 | h2
        · exact hfresh p h2 k2 (by simp [hk2])
        · rw [List.mem_singleton] at h2
          rw [h2]
          intro he
          exact hnd.1 (by rw [show k = k2 from he]; exact hk2)

theorem find?_append_none {α : Type} {p : α → Bool} {A : List α}
    (h : A.find? p = none) (B : List α) : (A ++ B).find? p = B.find? p := by
  induction A with
  | nil => rfl
  | cons a t ih =>
    cases hpa : p a with
    | true => rw [List.find?_cons_of_pos _ hpa] at h; exact absurd h (by simp)
    | false =>
      rw [List.find?_cons_of_neg _ (by simp [hpa])] at h
      rw [List.cons_append, List.find?_cons_of_neg _ (by simp [hpa])]
      exact ih h

theorem find?_append_some {α : Type} {p : α → Bool} {A : List α} {x : α}
    (h : A.find? p = some x) (B : List α) : (A ++ B).find? p = some x := by
  induction A with
  | nil => exact absurd h (by simp)
  | cons a t ih =>
    cases hpa : p a with
    | true =>
      rw [List.find?_cons_of_pos _ hpa] at h
      rw [List.cons_append, List.find?_cons_of_pos _ hpa]
      exact h
    | false =>
      rw [List.find?_cons_of_neg _ (by simp [hpa])] at h
      rw [List.cons_append, List.find?_cons_of_neg _ (by simp [hpa])]
      exact ih h

theorem lastValue_eq_getParamValue {ps : List (String × String)}
    (hnd : (ps.map Prod.fst).Nodup) (k : String) :
    lastValue ps k = getParamValue ps k := by
  induction ps with
  | nil => rfl
  | cons a t ih =>
    rw [List.map_cons, List.nodup_cons] at hnd
    rw [getParamValue_cons]
    unfold lastValue
    rw [List.reverse_cons]
    by_cases ha : a.1 = k
    · rw [if_pos ha]
      have hnone : (t.reverse).find? (fun p => p.1 = k) = none := by
        rw [List.find?_eq_none]
        intro p hp
        simp only [decide_eq_true_eq]
        intro he
        exact hnd.1 (ha ▸ he ▸ List.mem_map.mpr ⟨p, List.mem_reverse.mp hp, rfl⟩)
      rw [find?_append_none hnone]
      rw [List.find?_cons_of_pos _ (by simp [ha])]
      rfl
    · cases hlv : (t.reverse).find? (fun p => p.1 = k) with
      | some x =>
        rw [find?_append_some hlv]
        rw [if_neg ha, ← ih hnd.2]
        unfold lastValue
        rw [hlv]
      | none =>
        rw [find?_append_none hlv]
        rw [List.find?_cons_of_neg _ (by simp [ha]), List.find?_nil]
        rw [if_neg ha, ← ih hnd.2]
        unfold lastValue
        rw [hlv]

theorem getParamValue_filter_of_key (ps : List (String × String))
    (P : String → Bool) (k : String) (hP : P k = true) :
    getParamValue (ps.filter (fun p => P p.1)) k = getParamValue ps k := by
  induction ps with
  | nil => rfl
  | cons a t ih =>
    rw [List.filter_cons]
    by_cases ha : a.1 = k
    · rw [if_pos (by rw [ha]; exact hP)]
      rw [getParamValue_cons, getParamValue_cons, if_pos ha, if_pos ha]
    · cases hPa : P a.1 with
      | true =>
        rw [if_pos (by simp [hPa])]
        rw [getParamValue_cons, getParamValue_cons, if_neg ha, if_neg ha]
        exact ih
      | false =>
        rw [if_neg (by simp [hPa])]
        rw [ih, getParamValue_cons, if_neg ha]

theorem getParamValue_append_left (A B : List (String × String)) (k : String)
    (h : ∀ p ∈ A, p.1 ≠ k) :
    getParamValue (A ++ B) k = getParamValue B k := by
  induction A with
  | nil => rfl
  | cons a t ih =>
    rw [List.cons_append, getParamValue_cons, if_neg (h a (by simp))]
    exact ih (fun p hp => h p (by simp [hp]))

theorem getParamValue_filterMap_not_mem (ks : List String)
    (g : String → Option String) (k : String) (hk : k ∉ ks) :
    getParamValue (ks.filterMap (fun k2 => (g k2).map (fun v => (k2, v)))) k
      = none := by
  unfold getParamValue
  rw [Option.map_eq_none', List.find?_eq_none]
  intro p hp
  rw [List.mem_filterMap] at hp
  obtain ⟨k2, hk2, hpe⟩ := hp
  cases hg : g k2 with
  | none => rw [hg] at hpe; exact absurd hpe (by simp)
  | some s =>
    rw [hg, Option.map_some'] at hpe
    injection hpe with hpe
    simp only [decide_eq_true_eq]
    intro he
    rw [← hpe] at he
    exact hk (he ▸ hk2)

theorem getParamValue_filterMap (ks : List String) (g : String → Option String)
    (k : String) (hk : k ∈ ks) (hnd : ks.Nodup) :
    getParamValue (ks.filterMap (fun k2 => (g k2).map (fun v => (k2, v)))) k
      = g k := by
  induction ks with
  | nil => cases hk
  | cons a t ih =>
    rw [List.nodup_cons] at hnd
    rw [List.filterMap_cons]
    by_cases hak : a = k
    · subst hak
      cases hg : g a with
      | none =>
        rw [Option.map_none']
        dsimp only
        rw [getParamValue_filterMap_not_mem t g a hnd.1]
      | some s =>
        rw [Option.map_some']
        dsimp only
        rw [getParamValue_cons, if_pos rfl]
    · have hkt : k ∈ t := by
        rcases List.mem_cons.mp hk with h | h
        · exact absurd h.symm hak
        · exact h
      cases hg : g a with
      | none =>
        rw [Option.map_none']
        dsimp only
        exact ih hkt hnd.2
      | some s =>
        rw [Option.map_some']
        dsimp only
        rw [getParamValue_cons, if_neg hak]
        exact ih hkt hnd.2

theorem startsWithUtm_canonical {k : String} (hk : k ∈ canonicalKeys) :
    startsWithUtm k = true := by
  fin_cases hk <;> decide

theorem reorderUtmParams_eq (u : UrlModel)
    (hnd : (u.query.map Prod.fst).Nodup) :
    reorderUtmParams u =
      String.mk (serializeUrl
        { base := u.base, query := reorderedQuery u.query,
          fragment := u.fragment }) := by
  unfold reorderUtmParams reorderedQuery
  dsimp only
  rw [foldl_setParam_append _ []
    (((List.filter_sublist u.query).map Prod.fst).nodup hnd)
    (fun p _ p2 hp2 => absurd hp2 (List.not_mem_nil p2))]
  rw [List.nil_append]
  rw [foldl_setIfPresent_filterMap canonicalKeys _ _ (by decide) ?_]
  intro p hp k hk
  intro he
  have h1 := List.of_mem_filter hp
  rw [he, startsWithUtm_canonical hk] at h1
  exact absurd h1 (by decide)

/-- C8 (counterexample): the suggestion key matches the shape
`utm_\w+=value` but is not one of the five canonical tracking keys, so
the reorder step of `applyFix` silently drops it instead of setting it on
the URL. -/
theorem applyFix_drops_noncanonical :
    parseSuggestion (jsTrim (takeUntilOr ("utm_foo=bar").toList)) =
      some ("utm_foo", "bar") ∧
    applyFix "site.com?x=1" "utm_foo=bar" = "https://site.com?x=1" := by
  decide

/-- C8 (amended): for a URL that parses, a suggestion whose first
" or "-alternative matches `key=value` with `key` one of the five
canonical tracking keys, and a query without duplicate keys, `applyFix`
returns the URL whose query lists the non-tracking pairs first in their
original relative order followed by the present tracking keys in
canonical order, and the fixed key holds the suggested value.  The
canonicality restriction is needed: a key matching `utm_\w+` outside the
canonical five is dropped by the reorder step. -/
theorem applyFix_sets_and_reorders (url sugg : String) (u : UrlModel) (k v : String)
    (hu : urlParse (withHttpScheme4 url.toList) = some u)
    (hsugg : parseSuggestion (jsTrim (takeUntilOr sugg.toList)) = some (k, v))
    (hk : k ∈ canonicalKeys)
    (hnd : (u.query.map Prod.fst).Nodup) :
    applyFix url sugg =
      String.mk (serializeUrl
        { base := u.base, query := reorderedQuery (setParam u.query k v),
          fragment := u.fragment }) ∧
    getParamValue (reorderedQuery (setParam u.query k v)) k = some v := by
  constructor
  · unfold applyFix
    rw [hsugg, hu]
    exact reorderUtmParams_eq ⟨u.base, setParam u.query k v, u.fragment⟩
      (setParam_nodup hnd)
  · have hsw : startsWithUtm k = true := startsWithUtm_canonical hk
    unfold reorderedQuery
    rw [getParamValue_append_left]
    · rw [getParamValue_filterMap canonicalKeys _ k hk (by decide)]
      rw [lastValue_eq_getParamValue
        (((List.filter_sublist _).map Prod.fst).nodup (setParam_nodup hnd)) k]
      rw [getParamValue_filter_of_key _ startsWithUtm k hsw]
      exact getParam_set_self u.query k v
    · intro p hp he
      have h1 := List.of_mem_filter hp
      rw [he, hsw] at h1
      exact absurd h1 (by decide)

/-- Witness for the amended C8 theorem at a concrete input. -/
theorem applyFix_sets_and_reorders_witness :
    applyFix "site.com?b=2&utm_medium=x&a=1" "utm_source=google or utm_source=bing" =
      String.mk (serializeUrl
        { base := ("https://site.com").toList,
          query := reorderedQuery (setParam
            [("b", "2"), ("utm_medium", "x"), ("a", "1")] "utm_source" "google"),
          fragment := none }) ∧
    getParamValue (reorderedQuery (setParam
        [("b", "2"), ("utm_medium", "x"), ("a", "1")] "utm_source" "google"))
      "utm_source" = some "google" :=
  applyFix_sets_and_reorders "site.com?b=2&utm_medium=x&a=1"
    "utm_source=google or utm_source=bing"
    ⟨("https://site.com").toList, [("b", "2"), ("utm_medium", "x"), ("a", "1")], none⟩
    "utm_source" "google" (by decide) (by decide) (by decide) (by decide)

/-- The C9 counterexample URL: two duplicated tracking keys whose first
occurrence is valid and whose last occurrence is not, plus one fixable
spacing error. -/
def urlC9 : String :=
  "site.com?utm_source=google&utm_source=BAD&utm_medium=cpc&utm_medium=ALSOBAD&utm_campaign=Bad%20Campaign"

/-- The parameters `parseUrl` reads from `urlC9` (the first occurrence of
each key). -/
def pC9 : ParsedUTMParams :=
  { utm_source := some "google", utm_medium := some "cpc",
    utm_campaign := some "Bad Campaign" }

/-- The parameters of the fixed URL: the reorder step keeps the last
occurrence of each duplicated key. -/
def pC9fixed : ParsedUTMParams :=
  { utm_source := some "BAD", utm_medium := some "ALSOBAD",
    utm_campaign := some "bad_campaign" }

/-- C9: validity monotonicity fails.  `urlC9` validates with exactly one
blocking finding (the campaign spacing error); applying the fixes yields
a URL that validates with four blocking findings.  `parseUrl` reads the
first occurrence of a duplicated key while the reorder step of `applyFix`
keeps the last, so applying the single fix flips `utm_source` from
"google" to "BAD" and `utm_medium` from "cpc" to "ALSOBAD". -/
theorem applyAllFixes_not_monotone :
    parseUrl urlC9 = Except.ok (pC9, urlC9) ∧
    (validateUtmParams modelConfig pC9 chGoogleAds.id).errors.length = 1 ∧
    applyAllFixes urlC9 (validateUtmParams modelConfig pC9 chGoogleAds.id).messages =
      "https://site.com?utm_source=BAD&utm_medium=ALSOBAD&utm_campaign=bad_campaign" ∧
    parseUrl "https://site.com?utm_source=BAD&utm_medium=ALSOBAD&utm_campaign=bad_campaign" =
      Except.ok (pC9fixed,
        "https://site.com?utm_source=BAD&utm_medium=ALSOBAD&utm_campaign=bad_campaign") ∧
    (validateUtmParams modelConfig pC9fixed chGoogleAds.id).errors.length = 4 := by
  decide
